import Mathlib

/-!
Shallow embedding of the tmcg schema-driven generation engine.

Sources embedded here:
- internal/tmcg/schema/schema.go        (RemoveComputedAttributes, RemoveComputedAttributesFromBlock,
                                         RemoveInvalidAttributesFromSchema)
- internal/tmcg/parsing/parsing.go      (ParseValidationErrorsFromJSON)
- internal/tmcg/terraform/main_tf.go    (CreateMainTF, handleAttributesAndNestedBlocks,
                                         deriveVariableName, CreateVariablesTF,
                                         handleAttributesAndNestedBlocksForVariable,
                                         getAttributeType, cleanupHCLFile)

Modelling conventions:
- Go maps (string keys) are modelled as association lists with pairwise
  distinct keys assumed where relevant; iteration-order-dependent behaviour
  is modelled as first-match over the list order.
- Machine strings are Lean String values; all character scanning is done on
  String.data (List Char) because the built-in String primitives do not
  reduce inside the kernel.
- Nil Go pointers are modelled with Option.  Code paths that dereference a
  nil pointer in Go (a crash, observable on no input that the program
  accepts) are given a harmless total value and are marked with a comment.
-/

namespace Tmcg

/-- Lexicographic comparison of character lists, the order used by the Go
sort.Strings / sort.Slice calls in the generator (byte order of UTF-8 agrees
with code-point order). -/
def lexLe : List Char → List Char → Bool
  | [], _ => true
  | _ :: _, [] => false
  | a :: as, b :: bs => if a = b then lexLe as bs else decide (a < b)

/-- String comparison via lexLe. -/
def strLe (a b : String) : Bool := lexLe a.data b.data

/-- The sort performed by sort.Strings: lexicographic ascending. -/
def sortStrings (l : List String) : List String :=
  List.insertionSort (fun a b => strLe a b = true) l

/-- Sort a list by a string key, as sort.Slice with a name comparison does. -/
def sortByName {α : Type} (key : α → String) (l : List α) : List α :=
  List.insertionSort (fun a b => strLe (key a) (key b) = true) l

/-- First-match association-list lookup (Go map indexing). -/
def lookupAssoc {α : Type} : List (String × α) → String → Option α
  | [], _ => none
  | (k, v) :: rest, name => if k = name then some v else lookupAssoc rest name

/-- Whitespace class of the Go regexp \s: space, tab, newline, form feed,
carriage return. -/
def regexSpace (c : Char) : Bool :=
  c = ' ' || c = '\t' || c = '\n' || c = '\x0c' || c = '\r'

/-- ASCII part of the whitespace set used by strings.TrimSpace. -/
def goSpace (c : Char) : Bool :=
  c = ' ' || c = '\t' || c = '\n' || c = '\x0b' || c = '\x0c' || c = '\r'

/-- The strings.TrimSpace function (ASCII fragment). -/
def trimSpace (s : String) : String :=
  String.mk (((s.data.dropWhile (fun c => goSpace c)).reverse.dropWhile (fun c => goSpace c)).reverse)

/-! ## Type renderer: getAttributeType (main_tf.go)

The cty type expressions that getAttributeType discriminates on.  The
constructor `dynamic` stands for every cty type that none of the switch
cases of the Go function recognises (tuple types, the dynamic pseudo type,
capsule types, ...). -/

inductive CtyType where
  | string
  | number
  | bool
  | list (t : CtyType)
  | set (t : CtyType)
  | map (t : CtyType)
  | object (fields : List (String × CtyType))
  | dynamic

mutual

/-- The getAttributeType function of main_tf.go: renders a cty type as a
Terraform type expression, with the fallback "any" for unrecognised types. -/
def getAttributeType : CtyType → String
  | .string => "string"
  | .number => "number"
  | .bool => "bool"
  | .list t => "list(" ++ getAttributeType t ++ ")"
  | .set t => "set(" ++ getAttributeType t ++ ")"
  | .map t => "map(" ++ getAttributeType t ++ ")"
  | .object fields => "object(\x7b\n" ++ getAttributeTypeFields fields ++ "\x7d)"
  | .dynamic => "any"

/-- Field lines of an object type rendering (the loop over AttributeTypes in
getAttributeType). -/
def getAttributeTypeFields : List (String × CtyType) → String
  | [] => ""
  | (k, v) :: rest => "  " ++ k ++ " = " ++ getAttributeType v ++ "\n" ++ getAttributeTypeFields rest

end

/-! ## Schema model (terraform-json data reaching schema.go and main_tf.go) -/

/-- A tfjson.SchemaAttribute (the fields the engine reads). -/
structure SchemaAttribute where
  attributeType : CtyType := .dynamic
  required : Bool := false
  optional : Bool := false
  computed : Bool := false
  description : String := ""

mutual

/-- A tfjson.SchemaBlock: named attributes and named nested block types.
Entries of either map may be Go nil pointers (Option.none). -/
inductive SchemaBlock where
  | mk (attributes : List (String × Option SchemaAttribute))
       (nestedBlocks : List (String × Option SchemaBlockType))
       (description : String)

/-- A tfjson.SchemaBlockType; the inner Block pointer may be nil. -/
inductive SchemaBlockType where
  | mk (nestingMode : String) (minItems : Int) (maxItems : Int) (block : Option SchemaBlock)

end

def SchemaBlock.attributes : SchemaBlock → List (String × Option SchemaAttribute)
  | .mk a _ _ => a

def SchemaBlock.nestedBlocks : SchemaBlock → List (String × Option SchemaBlockType)
  | .mk _ n _ => n

def SchemaBlock.description : SchemaBlock → String
  | .mk _ _ d => d

def SchemaBlockType.nestingMode : SchemaBlockType → String
  | .mk m _ _ _ => m

def SchemaBlockType.minItems : SchemaBlockType → Int
  | .mk _ mi _ _ => mi

def SchemaBlockType.maxItems : SchemaBlockType → Int
  | .mk _ _ ma _ => ma

def SchemaBlockType.block : SchemaBlockType → Option SchemaBlock
  | .mk _ _ _ b => b

/-- A tfjson.Schema (its Block pointer may be nil). -/
structure Schema where
  block : Option SchemaBlock

/-- A tfjson.ProviderSchema: resource schemas by resource type name. -/
structure ProviderSchema where
  resourceSchemas : List (String × Schema)

/-- A tfjson.ProviderSchemas: provider schemas by provider key. -/
structure ProviderSchemas where
  schemas : List (String × ProviderSchema)

/-! ## Schema normalizer (schema.go) -/

/-- The computed-only test of RemoveComputedAttributes:
computed and not optional and not required. -/
def computedOnly (a : SchemaAttribute) : Bool :=
  a.computed && !a.optional && !a.required

/-- The computed-only test on an attribute-map entry that may be a Go nil
pointer.  The Go loop reads attrSchema.Computed without a nil check, a crash
on a nil entry; such entries are left untouched here. -/
def attrComputedOnly : Option SchemaAttribute → Bool
  | none => false
  | some a => computedOnly a

mutual

/-- The RemoveComputedAttributesFromBlock function of schema.go, written as a
pure function on the block (the Go function mutates in place): deletes every
computed-only attribute of the block and recurses into every nested block. -/
def RemoveComputedAttributesFromBlock : SchemaBlock → SchemaBlock
  | .mk attrs blocks desc =>
    .mk (attrs.filter (fun p => !(attrComputedOnly p.2))) (removeComputedNested blocks) desc

/-- The loop over block.NestedBlocks inside RemoveComputedAttributesFromBlock.
A nil nested-block pointer would crash the Go loop (nestedBlock.Block on nil);
such entries are left untouched here. -/
def removeComputedNested :
    List (String × Option SchemaBlockType) → List (String × Option SchemaBlockType)
  | [] => []
  | (n, none) :: rest => (n, none) :: removeComputedNested rest
  | (n, some bt) :: rest => (n, some (removeComputedBlockType bt)) :: removeComputedNested rest

/-- Recursion of RemoveComputedAttributesFromBlock through the Block pointer
of one nested block type (the function returns at once on a nil Block). -/
def removeComputedBlockType : SchemaBlockType → SchemaBlockType
  | .mk m mi ma none => .mk m mi ma none
  | .mk m mi ma (some b) => .mk m mi ma (some (RemoveComputedAttributesFromBlock b))

end

/-- One resource entry of the RemoveComputedAttributes loop: a nil Block is
skipped, otherwise the top-level attributes are filtered and every nested
block is processed with RemoveComputedAttributesFromBlock. -/
def removeComputedSchema : Schema → Schema
  | ⟨none⟩ => ⟨none⟩
  | ⟨some (.mk attrs blocks desc)⟩ =>
    ⟨some (.mk (attrs.filter (fun p => !(attrComputedOnly p.2)))
      (removeComputedNested blocks) desc)⟩

/-- The RemoveComputedAttributes function of schema.go as a pure function on
the whole provider-schema set. -/
def RemoveComputedAttributes (ps : ProviderSchemas) : ProviderSchemas :=
  ⟨ps.schemas.map (fun pv =>
    (pv.1, ⟨pv.2.resourceSchemas.map (fun rv => (rv.1, removeComputedSchema rv.2))⟩))⟩

mutual

/-- A computed-only attribute is present somewhere in the block tree. -/
def blockHasComputedOnly : SchemaBlock → Bool
  | .mk attrs blocks _ =>
    attrs.any (fun p => attrComputedOnly p.2) || nestedHasComputedOnly blocks

/-- A computed-only attribute is present somewhere under a nested-block list. -/
def nestedHasComputedOnly : List (String × Option SchemaBlockType) → Bool
  | [] => false
  | (_, none) :: rest => nestedHasComputedOnly rest
  | (_, some bt) :: rest => blockTypeHasComputedOnly bt || nestedHasComputedOnly rest

/-- A computed-only attribute is present somewhere under a nested block type. -/
def blockTypeHasComputedOnly : SchemaBlockType → Bool
  | .mk _ _ _ none => false
  | .mk _ _ _ (some b) => blockHasComputedOnly b

end

/-- A computed-only attribute is present somewhere in a provider-schema set. -/
def schemasHaveComputedOnly (ps : ProviderSchemas) : Bool :=
  ps.schemas.any (fun pv => pv.2.resourceSchemas.any (fun rv =>
    match rv.2.block with
    | none => false
    | some b => blockHasComputedOnly b))

/-! ## Repair: RemoveInvalidAttributesFromSchema (schema.go) -/

/-- The deletion loop of RemoveInvalidAttributesFromSchema: each named
attribute is deleted when present (a missing name is only logged). -/
def deleteAttributes (attrs : List (String × Option SchemaAttribute)) (names : List String) :
    List (String × Option SchemaAttribute) :=
  names.foldl (fun acc n => acc.filter (fun p => p.1 ≠ n)) attrs

/-- Selection of the rejection entry for one resource key: the first
validation-errors entry whose key has the resource key as a string prefix
(strings.HasPrefix(validationKey, resourceKey)); the loop breaks after it. -/
def selectInvalidAttributes (validationErrors : List (String × List String))
    (resourceKey : String) : List String :=
  match validationErrors.find? (fun kv => resourceKey.data.isPrefixOf kv.1.data) with
  | some kv => kv.2
  | none => []

/-- One resource entry of the RemoveInvalidAttributesFromSchema loop.  The Go
code dereferences resourceSchema.Block without a nil check; a nil Block (a
crash in Go) is left unchanged here. -/
def removeInvalidFromResource (validationErrors : List (String × List String))
    (resourceKey : String) : Schema → Schema
  | ⟨none⟩ => ⟨none⟩
  | ⟨some (.mk attrs blocks desc)⟩ =>
    let invalidAttributes := selectInvalidAttributes validationErrors resourceKey
    if invalidAttributes.isEmpty then ⟨some (.mk attrs blocks desc)⟩
    else ⟨some (.mk (deleteAttributes attrs invalidAttributes) blocks desc)⟩

/-- The attribute list of a schema (empty for a nil block). -/
def schemaAttrs : Schema → List (String × Option SchemaAttribute)
  | ⟨none⟩ => []
  | ⟨some b⟩ => b.attributes

/-- The RemoveInvalidAttributesFromSchema function of schema.go as a pure
function: removes, per resource, the attributes named by the first
prefix-matching validation-errors entry. -/
def RemoveInvalidAttributesFromSchema (cleanedSchema : List (String × ProviderSchema))
    (validationErrors : List (String × List String)) : ProviderSchemas :=
  ⟨cleanedSchema.map (fun pv =>
    (pv.1, ⟨pv.2.resourceSchemas.map (fun rv =>
      (rv.1, removeInvalidFromResource validationErrors rv.1 rv.2))⟩))⟩

/-! ## Cosmetic cleanup pass: cleanupHCLFile (main_tf.go)

The two regular-expression substitutions of cleanupHCLFile act on the lines
of the file body.  Text is modelled as its list of lines (the segments
between newline characters); every list element but the last is a line
terminated by a newline in the text, the last element is the tail of the
text after the final newline.

Substitution 1, (?m)(^\s*$\n)\x7b2,\x7d replaced by a newline: every maximal
run of two or more whitespace-only newline-terminated lines becomes a single
empty line.  Substitution 2, (?m)(^\s*$\n)\x7b1,\x7d(\s*\x7d) replaced by the
second group: every maximal run of whitespace-only newline-terminated lines
that immediately precedes a line opening with optional whitespace and a
closing brace is deleted. -/

/-- A line consisting only of whitespace (the regex ^\s*$). -/
def isBlankLine (s : String) : Bool := s.data.all (fun c => regexSpace c)

/-- A line whose first non-whitespace character is a closing brace
(the regex fragment \s*\x7d matching at the line start). -/
def isBraceLine (s : String) : Bool :=
  match s.data.dropWhile (fun c => regexSpace c) with
  | [] => false
  | c :: _ => c = Char.ofNat 125

/-- Collapse pass over the newline-terminated lines.  The flag records that
the run currently being read has already emitted its replacement line. -/
def collapseRuns : Bool → List String → List String
  | _, [] => []
  | inRun, a :: rest =>
    if isBlankLine a then
      if inRun then collapseRuns true rest
      else
        match rest with
        | [] => [a]
        | b :: _ =>
          if isBlankLine b then "" :: collapseRuns true rest
          else a :: collapseRuns false rest
    else a :: collapseRuns false rest

/-- Deletion pass for blank lines above closing braces, processed from the
last line backwards.  The flag records that the line just below is a closing
brace line or a blank line that is itself being deleted. -/
def removeBlanksRev : Bool → List String → List String
  | _, [] => []
  | below, a :: rest =>
    if isBlankLine a && below then removeBlanksRev true rest
    else a :: removeBlanksRev (isBraceLine a) rest

/-- Deletion pass in forward orientation over the newline-terminated lines;
tail is the final, unterminated segment of the text. -/
def removeBlanksBeforeBrace (body : List String) (tail : String) : List String :=
  (removeBlanksRev (isBraceLine tail) body.reverse).reverse

/-- The cosmetic cleanup pass of cleanupHCLFile on a text given as its list
of lines: substitution 1 (collapse runs of blank lines) followed by
substitution 2 (drop blank lines before closing braces).  Only the
newline-terminated lines (all but the last list element) can match the
^\s*$\n group of either regex. -/
def cleanupPass (ls : List String) : List String :=
  let tail := ls.getLastD ""
  removeBlanksBeforeBrace (collapseRuns false ls.dropLast) tail ++ [tail]

/-! ## Diagnostic extractor: ParseValidationErrorsFromJSON (parsing.go)

The extraction regexes are modelled as explicit leftmost-match scanners over
the character list of the subject string.  A dot in these Go regexes does
not match a newline, hence the newline checks in the scanners. -/

/-- An apostrophe character (used to spell the detail pattern). -/
def apos : Char := Char.ofNat 39

/-- The literal part of the detail regex: Can(apostrophe)t configure a value
for (quote). -/
def cantConfigureLit : List Char :=
  "Can".data ++ [apos] ++ "t configure a value for \"".data

/-- Lazy capture of the detail regex: the characters up to the first closing
quote, failing on a newline or the end of the subject. -/
def captureToQuote : List Char → Option (List Char)
  | [] => none
  | c :: rest =>
    if c = '"' then some []
    else if c = '\n' then none
    else (captureToQuote rest).map (fun cs => c :: cs)

/-- Leftmost-match scanner for the detail regex. -/
def scanCantConfigure : List Char → Option (List Char)
  | [] => none
  | c :: rest =>
    if cantConfigureLit.isPrefixOf (c :: rest) then
      match captureToQuote ((c :: rest).drop cantConfigureLit.length) with
      | some cap => some cap
      | none => scanCantConfigure rest
    else scanCantConfigure rest

/-- Pattern 1 of the attribute chain, on the detail field. -/
def extractFromDetail (detail : String) : Option String :=
  (scanCantConfigure detail.data).map String.mk

/-- The literal tail of the first summary regex. -/
def cannotBeSetLit : List Char := "\": this field cannot be set".data

/-- Lazy capture for (quote)(.*?)(quote): this field cannot be set, read
after an opening quote: the capture extends up to the first position where
the closing quote plus literal matches; a newline ends the attempt. -/
def captureToCannotBeSet : List Char → Option (List Char)
  | [] => none
  | c :: rest =>
    if cannotBeSetLit.isPrefixOf (c :: rest) then some []
    else if c = '\n' then none
    else (captureToCannotBeSet rest).map (fun cs => c :: cs)

/-- Leftmost-match scanner for the first summary regex. -/
def scanCannotBeSet : List Char → Option (List Char)
  | [] => none
  | c :: rest =>
    if c = '"' then
      match captureToCannotBeSet rest with
      | some cap => some cap
      | none => scanCannotBeSet rest
    else scanCannotBeSet rest

/-- Pattern 2 of the attribute chain, on the summary field. -/
def extractCannotBeSet (summary : String) : Option String :=
  (scanCannotBeSet summary.data).map String.mk

/-- A word character of the Go regexp \w class. -/
def wordChar (c : Char) : Bool :=
  ('a' ≤ c && c ≤ 'z') || ('A' ≤ c && c ≤ 'Z') || ('0' ≤ c && c ≤ '9') || c = '_'

/-- The literal part of the second summary regex. -/
def unknownKeyLit : List Char := "invalid or unknown key: ".data

/-- Leftmost-match scanner for invalid or unknown key: (\w+). -/
def scanUnknownKey : List Char → Option (List Char)
  | [] => none
  | c :: rest =>
    if unknownKeyLit.isPrefixOf (c :: rest) then
      match (c :: rest).drop unknownKeyLit.length with
      | [] => scanUnknownKey rest
      | d :: ds =>
        if wordChar d then some (d :: ds.takeWhile (fun x => wordChar x))
        else scanUnknownKey rest
    else scanUnknownKey rest

/-- Pattern 3 of the attribute chain, on the summary field. -/
def extractUnknownKey (summary : String) : Option String :=
  (scanUnknownKey summary.data).map String.mk

/-- The context regex resource\s+(quote)([^(quote)]+)(quote)\s+(quote)([^(quote)]+)(quote),
matched at one position: the two captured groups. -/
def matchResourceAt (l : List Char) : Option (String × String) :=
  if "resource".data.isPrefixOf l then
    let r1 := l.drop 8
    let sp1 := r1.takeWhile (fun c => regexSpace c)
    if sp1.isEmpty then none
    else
      match r1.dropWhile (fun c => regexSpace c) with
      | '"' :: q1 =>
        let g1 := q1.takeWhile (fun c => c ≠ '"')
        if g1.isEmpty then none
        else
          match q1.dropWhile (fun c => c ≠ '"') with
          | '"' :: r2 =>
            let sp2 := r2.takeWhile (fun c => regexSpace c)
            if sp2.isEmpty then none
            else
              match r2.dropWhile (fun c => regexSpace c) with
              | '"' :: q2 =>
                let g2 := q2.takeWhile (fun c => c ≠ '"')
                if g2.isEmpty then none
                else
                  match q2.dropWhile (fun c => c ≠ '"') with
                  | '"' :: _ => some (String.mk g1, String.mk g2)
                  | _ => none
              | _ => none
          | _ => none
      | _ => none
  else none

/-- Leftmost-match scanner for the context regex. -/
def scanResource : List Char → Option (String × String)
  | [] => none
  | c :: rest =>
    match matchResourceAt (c :: rest) with
    | some g => some g
    | none => scanResource rest

/-- Address extraction from snippet.context:
resourceType.resourceName on a match. -/
def extractAddressFromContext (context : String) : Option String :=
  (scanResource context.data).map (fun g => g.1 ++ "." ++ g.2)

/-- A terraform validate diagnostic snippet. -/
structure Snippet where
  context : String := ""
  code : String := ""

/-- A terraform validate diagnostic (the fields parsing.go reads). -/
structure Diagnostic where
  severity : String := ""
  address : String := ""
  summary : String := ""
  detail : String := ""
  snippet : Snippet := {}

/-- Address resolution of one diagnostic: the address field verbatim when
non-empty, else the context extraction, else none (the diagnostic is
skipped). -/
def resolveAddress (d : Diagnostic) : Option String :=
  if d.address ≠ "" then some d.address
  else if d.snippet.context ≠ "" then extractAddressFromContext d.snippet.context
  else none

/-- Everything before the first equals sign of a character list. -/
def beforeEquals : List Char → List Char
  | [] => []
  | c :: rest => if c = '=' then [] else c :: beforeEquals rest

/-- Pattern 4 of the attribute chain: the trimmed token left of the first
equals sign of the trimmed snippet code, when the code is non-empty,
contains an equals sign and the token is non-empty. -/
def extractFromCode (code : String) : Option String :=
  let trimmed := trimSpace code
  if trimmed = "" then none
  else if trimmed.data.contains '=' then
    let attrName := trimSpace (String.mk (beforeEquals trimmed.data))
    if attrName = "" then none else some attrName
  else none

/-- The ordered attribute-extraction chain of one diagnostic: detail pattern,
then the two summary patterns, then the snippet-code fallback. -/
def extractAttribute (d : Diagnostic) : Option String :=
  match extractFromDetail d.detail with
  | some a => some a
  | none =>
    match extractCannotBeSet d.summary with
    | some a => some a
    | none =>
      match extractUnknownKey d.summary with
      | some a => some a
      | none => extractFromCode d.snippet.code

/-- Append a value to the list held by a key of the result map
(invalidKeys[address] = append(invalidKeys[address], attribute)). -/
def appendKey (m : List (String × List String)) (k : String) (v : String) :
    List (String × List String) :=
  match lookupAssoc m k with
  | some _ => m.map (fun kv => if kv.1 = k then (kv.1, kv.2 ++ [v]) else kv)
  | none => m ++ [(k, [v])]

/-- One iteration of the diagnostics loop of ParseValidationErrorsFromJSON. -/
def processDiagnostic (m : List (String × List String)) (d : Diagnostic) :
    List (String × List String) :=
  if d.severity = "error" then
    match resolveAddress d with
    | none => m
    | some address =>
      match extractAttribute d with
      | some attrName => appendKey m address attrName
      | none => m
  else m

/-- The diagnostics loop of ParseValidationErrorsFromJSON. -/
def processDiagnostics (ds : List Diagnostic) : List (String × List String) :=
  ds.foldl processDiagnostic []

/-! ## JSON decoding front of ParseValidationErrorsFromJSON

The json.Unmarshal call is modelled on JSON values (the textual parse into a
value is the standard-library front end).  The Go decoding rules embedded:
an unknown object key is ignored; a JSON null leaves a string or struct
field untouched and sets a slice to nil; a value of any other wrong type is
a decoding error; object keys are matched case-insensitively (ASCII fold);
with repeated keys the last assignment wins. -/

inductive Json where
  | null
  | jbool (b : Bool)
  | jnum (raw : String)
  | jstr (s : String)
  | jarr (elems : List Json)
  | jobj (fields : List (String × Json))

/-- ASCII lower-casing of one character (the fold of the Go key match). -/
def foldChar (c : Char) : Char :=
  if 'A' ≤ c && c ≤ 'Z' then Char.ofNat (c.toNat + 32) else c

/-- Case-insensitive key comparison of the Go decoder (ASCII fragment). -/
def keyMatches (k name : String) : Bool := k.data.map foldChar = name.data

/-- Decode a JSON value into a string field holding cur. -/
def decodeStringField (cur : String) : Json → Except String String
  | .jstr s => .ok s
  | .null => .ok cur
  | _ => .error "cannot unmarshal into field of type string"

/-- Decode a JSON value into the snippet struct field holding cur. -/
def decodeSnippet (cur : Snippet) : Json → Except String Snippet
  | .null => .ok cur
  | .jobj fields =>
    fields.foldl (fun acc kv =>
      acc.bind (fun s =>
        if keyMatches kv.1 "context" then
          (decodeStringField s.context kv.2).map (fun v => { s with context := v })
        else if keyMatches kv.1 "code" then
          (decodeStringField s.code kv.2).map (fun v => { s with code := v })
        else .ok s)) (.ok cur)
  | _ => .error "cannot unmarshal into field of type snippet"

/-- Decode a JSON value into one diagnostic struct. -/
def decodeDiagnostic : Json → Except String Diagnostic
  | .null => .ok {}
  | .jobj fields =>
    fields.foldl (fun acc kv =>
      acc.bind (fun d =>
        if keyMatches kv.1 "severity" then
          (decodeStringField d.severity kv.2).map (fun v => { d with severity := v })
        else if keyMatches kv.1 "address" then
          (decodeStringField d.address kv.2).map (fun v => { d with address := v })
        else if keyMatches kv.1 "summary" then
          (decodeStringField d.summary kv.2).map (fun v => { d with summary := v })
        else if keyMatches kv.1 "detail" then
          (decodeStringField d.detail kv.2).map (fun v => { d with detail := v })
        else if keyMatches kv.1 "snippet" then
          (decodeSnippet d.snippet kv.2).map (fun v => { d with snippet := v })
        else .ok d)) (.ok ({} : Diagnostic))
  | _ => .error "cannot unmarshal into field of type diagnostic"

/-- Decode a JSON value into the diagnostics slice. -/
def decodeDiagnosticList : Json → Except String (List Diagnostic)
  | .null => .ok []
  | .jarr elems =>
    elems.foldr (fun e acc =>
      (decodeDiagnostic e).bind (fun d => acc.map (fun ds => d :: ds))) (.ok [])
  | _ => .error "cannot unmarshal into field of type diagnostics"

/-- Decode a JSON value into the anonymous output struct of
ParseValidationErrorsFromJSON. -/
def decodeValidateOutput : Json → Except String (List Diagnostic)
  | .null => .ok []
  | .jobj fields =>
    fields.foldl (fun acc kv =>
      acc.bind (fun ds =>
        if keyMatches kv.1 "diagnostics" then decodeDiagnosticList kv.2
        else .ok ds)) (.ok [])
  | _ => .error "cannot unmarshal into the diagnostics output struct"

/-- The ParseValidationErrorsFromJSON function of parsing.go: on a decoding
error the error is surfaced and no mapping is produced; otherwise the
diagnostics loop builds the address-to-attribute-names mapping. -/
def ParseValidationErrorsFromJSON (j : Json) : Except String (List (String × List String)) :=
  (decodeValidateOutput j).map processDiagnostics

/-- Success test of an Except value (Go: err == nil). -/
def isOkE {ε α : Type} : Except ε α → Bool
  | .ok _ => true
  | .error _ => false

/-- A JSON value acceptable as a string field: a string or null. -/
def strFieldOk : Json → Bool
  | .jstr _ => true
  | .null => true
  | _ => false

/-- A JSON value acceptable as the snippet field. -/
def snippetOk : Json → Bool
  | .null => true
  | .jobj fields =>
    fields.all (fun kv =>
      if keyMatches kv.1 "context" || keyMatches kv.1 "code" then strFieldOk kv.2 else true)
  | _ => false

/-- A JSON value acceptable as one diagnostic. -/
def diagnosticOk : Json → Bool
  | .null => true
  | .jobj fields =>
    fields.all (fun kv =>
      if keyMatches kv.1 "severity" || keyMatches kv.1 "address" ||
         keyMatches kv.1 "summary" || keyMatches kv.1 "detail" then strFieldOk kv.2
      else if keyMatches kv.1 "snippet" then snippetOk kv.2
      else true)
  | _ => false

/-- A JSON value acceptable as the diagnostics list. -/
def diagnosticListOk : Json → Bool
  | .null => true
  | .jarr elems => elems.all (fun e => diagnosticOk e)
  | _ => false

/-- A JSON value parsable as the diagnostics output object: the shape that
json.Unmarshal accepts for the anonymous struct of
ParseValidationErrorsFromJSON. -/
def validateOutputParsable : Json → Bool
  | .null => true
  | .jobj fields =>
    fields.all (fun kv => if keyMatches kv.1 "diagnostics" then diagnosticListOk kv.2 else true)
  | _ => false

/-! ## Dual code generator (main_tf.go)

The generators are embedded as emitters of structured traces: the skeleton
emitter records, per block level, the attribute references and dynamic
blocks appended to the hclwrite body, in emission order; the declaration
emitter records the object field lines and nested object shapes.  The
source collects the combined attribute and nested-block names of a level,
sorts them, and loops over the sorted names with map lookups; here each
level is emitted structurally (attributes, then nested blocks) and then
sorted by name, which produces the same emission sequence because the
attribute and nested-block names of one Go block level are pairwise
distinct map keys.  Description comment tokens (cosmetic, unnamed) are not
recorded in the traces. -/

/-- One emitted element of a resource skeleton block body: an attribute
reference line or a dynamic block. -/
inductive MainItem where
  | attr (name : String) (ref : String)
  | dyn (name : String) (forEach : String) (content : List MainItem)

def MainItem.name : MainItem → String
  | .attr n _ => n
  | .dyn n _ _ => n

/-- The for_each expression of a dynamic nested block. -/
def dynForEachExpr (pfx name : String) : String :=
  "can(coalesce(" ++ pfx ++ "." ++ name ++ ")) ? flatten([" ++ pfx ++ "." ++ name ++ "]) : []"

mutual

/-- The handleAttributesAndNestedBlocks function of main_tf.go on one block
level: attribute references prefixed with pfx and one dynamic block per
nested block, emitted in lexicographic name order.  A nil attribute entry is
still emitted: the Go code stores the nil pointer in the combined item map,
the type assertion on the interface holding a typed nil succeeds, and
SetAttributeRaw uses only the name, never dereferencing the pointer. -/
def handleAttributesAndNestedBlocks : SchemaBlock → String → List MainItem
  | .mk attrs blocks _, pfx =>
    sortByName MainItem.name
      (attrs.map (fun p => MainItem.attr p.1 (pfx ++ "." ++ p.1)) ++ rawNestedItems blocks pfx)

/-- The nested-block arm of the handleAttributesAndNestedBlocks loop.  A nil
SchemaBlockType entry fails the ok and blockSchema nil test and emits
nothing.  A non-nil entry whose Block pointer is nil is a nil dereference in
the Go recursion (a crash); it is modelled as a dynamic block with empty
content. -/
def rawNestedItems : List (String × Option SchemaBlockType) → String → List MainItem
  | [], _ => []
  | (_, none) :: rest, pfx => rawNestedItems rest pfx
  | (n, some (.mk _ _ _ none)) :: rest, pfx =>
    MainItem.dyn n (dynForEachExpr pfx n) [] :: rawNestedItems rest pfx
  | (n, some (.mk _ _ _ (some inner))) :: rest, pfx =>
    MainItem.dyn n (dynForEachExpr pfx n)
      (handleAttributesAndNestedBlocks inner (n ++ ".value")) :: rawNestedItems rest pfx

end

/-- The nested-block arm of the top-level CreateMainTF loop: here a nil
SchemaBlockType and a nil inner Block are both skipped with a warning. -/
def rawTopNestedItems : List (String × Option SchemaBlockType) → String → List MainItem
  | [], _ => []
  | (_, none) :: rest, pfx => rawTopNestedItems rest pfx
  | (_, some (.mk _ _ _ none)) :: rest, pfx => rawTopNestedItems rest pfx
  | (n, some (.mk _ _ _ (some inner))) :: rest, pfx =>
    MainItem.dyn n (dynForEachExpr pfx n)
      (handleAttributesAndNestedBlocks inner (n ++ ".value")) :: rawTopNestedItems rest pfx

/-- The per-resource body of CreateMainTF: attribute references use var for
mode single and each.value otherwise; dynamic blocks use each.value for mode
multiple and var otherwise; the level is emitted in lexicographic name
order.  As in handleAttributesAndNestedBlocks, a nil attribute entry is
emitted: both branches of the top-level loop write the reference with
SetAttributeRaw from the name alone, without dereferencing the pointer. -/
def resourceBodyItems (mode : String) : SchemaBlock → List MainItem
  | .mk attrs blocks _ =>
    let attrPfx := if mode = "single" then "var" else "each.value"
    let blockPfx := if mode = "multiple" then "each.value" else "var"
    sortByName MainItem.name
      (attrs.map (fun p => MainItem.attr p.1 (attrPfx ++ "." ++ p.1)) ++
        rawTopNestedItems blocks blockPfx)

/-- Vowel test of the pluralizer model. -/
def isVowel (c : Char) : Bool :=
  c = 'a' || c = 'e' || c = 'i' || c = 'o' || c = 'u'

/-- Modelled behaviour of the external go-pluralize library (Plural) on the
regular nouns the generator derives variable names from: sibilant endings
take es, a consonant followed by y becomes ies, everything else takes s. -/
def pluralizeWord (w : String) : String :=
  let cs := w.data
  if "ch".data.isSuffixOf cs || "sh".data.isSuffixOf cs ||
     "s".data.isSuffixOf cs || "x".data.isSuffixOf cs || "z".data.isSuffixOf cs then
    w ++ "es"
  else
    match cs.reverse with
    | 'y' :: p :: _ =>
      if isVowel p then w ++ "s"
      else String.mk (cs.dropLast) ++ "ies"
    | _ => w ++ "s"

/-- Everything before and after the first underscore (strings.SplitN with
limit 2). -/
def splitFirstUnderscore : List Char → Option (List Char × List Char)
  | [] => none
  | c :: rest =>
    if c = '_' then some ([], rest)
    else (splitFirstUnderscore rest).map (fun pr => (c :: pr.1, pr.2))

/-- The deriveVariableName function of main_tf.go: strip the provider prefix
up to the first underscore and pluralize the remainder; without an
underscore the resource name is used unchanged. -/
def deriveVariableName (resource : String) : String :=
  match splitFirstUnderscore resource.data with
  | some pr => pluralizeWord (String.mk pr.2)
  | none => resource

/-- The provider fields of parsing.Provider that the generator reads. -/
structure Provider where
  namespaceLower : String := ""
  nameLower : String := ""

/-- A parsing.Resource. -/
structure Resource where
  name : String
  mode : String
  provider : Provider := {}

/-- One resource block of the generated skeleton. -/
structure ResourceBlock where
  resourceType : String
  forEach : Option String
  items : List MainItem

/-- The CreateMainTF function of main_tf.go as a trace: one resource block
per requested resource whose provider and resource schemas exist; mode
multiple adds the keyed for_each clause over the derived aggregate variable.
A resource schema whose Block pointer is nil crashes the Go loop; it is
modelled as an empty block. -/
def CreateMainTF (cleanedSchema : List (String × ProviderSchema)) (resources : List Resource) :
    List ResourceBlock :=
  resources.flatMap (fun r =>
    match lookupAssoc cleanedSchema
        ("registry.terraform.io/" ++ r.provider.namespaceLower ++ "/" ++ r.provider.nameLower) with
    | none => []
    | some ps =>
      match lookupAssoc ps.resourceSchemas r.name with
      | none => []
      | some sch =>
        let b := match sch.block with
          | none => SchemaBlock.mk [] [] ""
          | some b => b
        let fe := if r.mode = "multiple" then
            some ("\x7b for i in coalesce(var." ++ deriveVariableName r.name ++
              ", []) : i.name => i \x7d")
          else none
        [⟨r.name, fe, resourceBodyItems r.mode b⟩])

/-- One emitted element of an object type shape in the declaration file: an
attribute field line or a nested object field. -/
inductive VField where
  | attrF (name : String) (rendered : String)
  | blockF (name : String) (shape : String) (isOpt : Bool) (inner : List VField)

def VField.name : VField → String
  | .attrF n _ => n
  | .blockF n _ _ _ => n

/-- Rendering of one attribute field line of
handleAttributesAndNestedBlocksForVariable: the type expression, wrapped in
optional when the attribute is not required and the level is nested. -/
def renderVarAttr (a : SchemaAttribute) (isNested : Bool) : String :=
  if !a.required && isNested then "optional(" ++ getAttributeType a.attributeType ++ ")"
  else getAttributeType a.attributeType

/-- The attribute rendering lifted to a map entry that may be a Go nil
pointer.  handleAttributesAndNestedBlocksForVariable reads
attrSchema.AttributeType with no nil check, a nil dereference in Go (a
crash); the entry is modelled as the rendering of the zero-valued
attribute. -/
def renderVarAttrOpt (o : Option SchemaAttribute) (isNested : Bool) : String :=
  match o with
  | none => renderVarAttr {} isNested
  | some a => renderVarAttr a isNested

mutual

/-- The handleAttributesAndNestedBlocksForVariable function of main_tf.go on
one block level: attribute field lines and nested object shapes, emitted in
lexicographic name order (sort.Slice on the combined item names). -/
def handleAttributesAndNestedBlocksForVariable : SchemaBlock → Bool → List VField
  | .mk attrs blocks _, isNested =>
    sortByName VField.name
      (attrs.map (fun p => VField.attrF p.1 (renderVarAttrOpt p.2 isNested)) ++
        rawVarBlocks blocks)

/-- The nested-block arm of the handleAttributesAndNestedBlocksForVariable
loop: the object shape follows the nesting mode (single is an object, list
and set wrap the object), an unknown nesting mode is skipped with a warning,
and minItems zero marks the field optional.  A nil SchemaBlockType entry and
a nil inner Block are nil dereferences in Go (crashes); they are modelled as
a skip and as an empty inner shape. -/
def rawVarBlocks : List (String × Option SchemaBlockType) → List VField
  | [] => []
  | (_, none) :: rest => rawVarBlocks rest
  | (n, some (.mk mode mi _ none)) :: rest =>
    if mode = "single" then VField.blockF n "object(\x7b" (mi = 0) [] :: rawVarBlocks rest
    else if mode = "list" then VField.blockF n "list(object(\x7b" (mi = 0) [] :: rawVarBlocks rest
    else if mode = "set" then VField.blockF n "set(object(\x7b" (mi = 0) [] :: rawVarBlocks rest
    else rawVarBlocks rest
  | (n, some (.mk mode mi _ (some inner))) :: rest =>
    if mode = "single" then
      VField.blockF n "object(\x7b" (mi = 0)
        (handleAttributesAndNestedBlocksForVariable inner true) :: rawVarBlocks rest
    else if mode = "list" then
      VField.blockF n "list(object(\x7b" (mi = 0)
        (handleAttributesAndNestedBlocksForVariable inner true) :: rawVarBlocks rest
    else if mode = "set" then
      VField.blockF n "set(object(\x7b" (mi = 0)
        (handleAttributesAndNestedBlocksForVariable inner true) :: rawVarBlocks rest
    else rawVarBlocks rest

end

/-- One variable declaration of the generated declaration file. -/
structure VariableDecl where
  varName : String
  isBlockDecl : Bool
  typeRendering : String
  fields : List VField
  hasDefaultNull : Bool
  declDescription : Option String

/-- One attribute declaration of the single-cardinality branch of
CreateVariablesTF: rendered type, default null exactly when the attribute is
optional, description with newlines collapsed when non-empty. -/
def singleAttrDecl (n : String) (a : SchemaAttribute) : VariableDecl :=
  let d := String.mk (a.description.data.map (fun c => if c = '\n' then ' ' else c))
  ⟨n, false, getAttributeType a.attributeType, [], a.optional, if d = "" then none else some d⟩

/-- The nested-block arm of the single-cardinality CreateVariablesTF loop: a
nil entry or nil inner Block is skipped; the declaration is an object shape
when maxItems is one and a list-of-object shape otherwise, with default null
exactly when minItems is zero. -/
def rawSingleBlockDecls : List (String × Option SchemaBlockType) → List VariableDecl
  | [] => []
  | (_, none) :: rest => rawSingleBlockDecls rest
  | (_, some (.mk _ _ _ none)) :: rest => rawSingleBlockDecls rest
  | (n, some (.mk _ mi ma (some inner))) :: rest =>
    ⟨n, true, if ma ≠ 1 then "list(object(\x7b" else "object(\x7b",
      handleAttributesAndNestedBlocksForVariable inner true, mi = 0, none⟩ ::
      rawSingleBlockDecls rest

/-- The single-cardinality branch of CreateVariablesTF on one resource
block: one declaration per non-nil attribute and one per valid nested block,
in lexicographic name order.  A nil attribute entry is skipped: the loop
hits the explicit attrSchema == nil check and continues. -/
def createVariablesSingle : SchemaBlock → List VariableDecl
  | .mk attrs blocks _ =>
    sortByName VariableDecl.varName
      (attrs.flatMap (fun p =>
        match p.2 with
        | none => []
        | some a => [singleAttrDecl p.1 a]) ++ rawSingleBlockDecls blocks)

/-- The multiple-cardinality branch of CreateVariablesTF on one resource:
exactly one declaration, named by deriveVariableName, typed as a list of
object mirroring the resource block, defaulted to null. -/
def createVariablesMultiple (resourceName : String) (b : SchemaBlock) : VariableDecl :=
  ⟨deriveVariableName resourceName, true, "list(object(\x7b",
    handleAttributesAndNestedBlocksForVariable b true, true, none⟩

/-- The CreateVariablesTF function of main_tf.go as a trace.  A resource
schema whose Block pointer is nil crashes the Go loop; it is modelled as an
empty block. -/
def CreateVariablesTF (cleanedSchema : List (String × ProviderSchema)) (resources : List Resource) :
    List VariableDecl :=
  resources.flatMap (fun r =>
    match lookupAssoc cleanedSchema
        ("registry.terraform.io/" ++ r.provider.namespaceLower ++ "/" ++ r.provider.nameLower) with
    | none => []
    | some ps =>
      match lookupAssoc ps.resourceSchemas r.name with
      | none => []
      | some sch =>
        let b := match sch.block with
          | none => SchemaBlock.mk [] [] ""
          | some b => b
        if r.mode = "multiple" then [createVariablesMultiple r.name b]
        else createVariablesSingle b)

/-! ## Name trees: the per-level name sequences of the two artifacts -/

/-- The tree of emitted names: one node per block level, entries in emission
order, block entries carrying their sub-level. -/
inductive NameTree where
  | node (entries : List (String × Option NameTree))

mutual

/-- The name and sub-level of one emitted skeleton item. -/
def mainItemEntry : MainItem → String × Option NameTree
  | .attr n _ => (n, none)
  | .dyn n _ content => (n, some (.node (mainTreeEntries content)))

/-- Name-sequence extraction from a skeleton trace level. -/
def mainTreeEntries : List MainItem → List (String × Option NameTree)
  | [] => []
  | i :: rest => mainItemEntry i :: mainTreeEntries rest

end

mutual

/-- The name and sub-level of one emitted declaration field. -/
def vfieldEntry : VField → String × Option NameTree
  | .attrF n _ => (n, none)
  | .blockF n _ _ inner => (n, some (.node (varTreeEntries inner)))

/-- Name-sequence extraction from a declaration shape level. -/
def varTreeEntries : List VField → List (String × Option NameTree)
  | [] => []
  | f :: rest => vfieldEntry f :: varTreeEntries rest

end

/-- The name and sub-level of one single-cardinality declaration. -/
def declEntry (d : VariableDecl) : String × Option NameTree :=
  (d.varName, if d.isBlockDecl then some (.node (varTreeEntries d.fields)) else none)

/-- Name-sequence extraction from the single-cardinality declaration list. -/
def singleDeclEntries (decls : List VariableDecl) : List (String × Option NameTree) :=
  decls.map declEntry

mutual

/-- The traversal contract of the generator on one block: at each level, the
combined attribute and nested-block names in lexicographic order, with valid
nested blocks carrying their recursively ordered sub-level. -/
def specNameTree : SchemaBlock → NameTree
  | .mk attrs blocks _ =>
    .node (List.insertionSort (fun a b => strLe a.1 b.1 = true)
      (attrs.map (fun p => (p.1, (none : Option NameTree))) ++ specNestedEntries blocks))

/-- Spec entry of one nested block (entries that the generators skip or
crash on are given no sub-level; they are excluded by the validity predicate
of the ordering theorem). -/
def specNestedEntry : String × Option SchemaBlockType → String × Option NameTree
  | (n, none) => (n, none)
  | (n, some (.mk _ _ _ none)) => (n, none)
  | (n, some (.mk _ _ _ (some inner))) => (n, some (specNameTree inner))

/-- Spec entries of the nested blocks of one level. -/
def specNestedEntries : List (String × Option SchemaBlockType) → List (String × Option NameTree)
  | [] => []
  | e :: rest => specNestedEntry e :: specNestedEntries rest

end

/-- The combined entries of one block level before sorting. -/
def specEntries : SchemaBlock → List (String × Option NameTree)
  | .mk attrs blocks _ =>
    attrs.map (fun p => (p.1, (none : Option NameTree))) ++ specNestedEntries blocks

mutual

/-- Validity of a block for the shared ordering contract: every attribute
entry is non-nil, and every nested block entry is non-nil, has a non-nil
inner Block and one of the three known nesting modes, recursively. -/
def validBlock : SchemaBlock → Bool
  | .mk attrs blocks _ =>
    attrs.all (fun p => p.2.isSome) && validNested blocks

/-- Validity of a nested-block list. -/
def validNested : List (String × Option SchemaBlockType) → Bool
  | [] => true
  | (_, none) :: _ => false
  | (_, some bt) :: rest => validBlockType bt && validNested rest

/-- Validity of one nested block type. -/
def validBlockType : SchemaBlockType → Bool
  | .mk _ _ _ none => false
  | .mk mode _ _ (some inner) =>
    (mode = "single" || mode = "list" || mode = "set") && validBlock inner

end

/-- Adjacent-pair lexicographic sortedness of a name list. -/
def namesSorted : List String → Bool
  | [] => true
  | [_] => true
  | a :: b :: rest => strLe a b && namesSorted (b :: rest)

mutual

/-- Every level of a name tree is lexicographically sorted. -/
def treeSorted : NameTree → Bool
  | .node entries => namesSorted (entries.map Prod.fst) && entriesChildrenSorted entries

/-- Sortedness of the children of one level. -/
def entriesChildrenSorted : List (String × Option NameTree) → Bool
  | [] => true
  | (_, none) :: rest => entriesChildrenSorted rest
  | (_, some t) :: rest => treeSorted t && entriesChildrenSorted rest

end

/-- The sub-level of one name-tree entry, when present, is sorted. -/
def entryChildSorted (e : String × Option NameTree) : Bool :=
  match e.2 with
  | none => true
  | some t => treeSorted t

/-! ## Theorems -/

/-- Claim C7: for every type expression, the type renderer getAttributeType
returns a string and never fails (it is a total function of this file):
the primitives render as their literal type names, list(T), set(T) and
map(T) render as the wrapping syntax around the recursive rendering of T,
and any unrecognised type renders as the fallback string any. -/
theorem C7_type_renderer :
    getAttributeType .string = "string" ∧
    getAttributeType .number = "number" ∧
    getAttributeType .bool = "bool" ∧
    (∀ t, getAttributeType (.list t) = "list(" ++ getAttributeType t ++ ")") ∧
    (∀ t, getAttributeType (.set t) = "set(" ++ getAttributeType t ++ ")") ∧
    (∀ t, getAttributeType (.map t) = "map(" ++ getAttributeType t ++ ")") ∧
    getAttributeType .dynamic = "any" := by
  refine ⟨rfl, rfl, rfl, ?_, ?_, ?_, rfl⟩ <;> intro t <;> rfl

mutual

theorem prune_block_clean (b : SchemaBlock) :
    blockHasComputedOnly (RemoveComputedAttributesFromBlock b) = false := by
  cases b with
  | mk attrs blocks desc =>
    simp only [RemoveComputedAttributesFromBlock, blockHasComputedOnly,
      prune_nested_clean blocks, Bool.or_false, List.any_eq_false]
    intro p hp
    simp only [List.mem_filter] at hp
    simpa using hp.2

theorem prune_nested_clean (l : List (String × Option SchemaBlockType)) :
    nestedHasComputedOnly (removeComputedNested l) = false := by
  match l with
  | [] => simp [removeComputedNested, nestedHasComputedOnly]
  | (n, none) :: rest =>
    simp [removeComputedNested, nestedHasComputedOnly, prune_nested_clean rest]
  | (n, some bt) :: rest =>
    simp [removeComputedNested, nestedHasComputedOnly, prune_nested_clean rest,
      prune_blocktype_clean bt]

theorem prune_blocktype_clean (bt : SchemaBlockType) :
    blockTypeHasComputedOnly (removeComputedBlockType bt) = false := by
  match bt with
  | .mk m mi ma none => simp [removeComputedBlockType, blockTypeHasComputedOnly]
  | .mk m mi ma (some b) =>
    simp [removeComputedBlockType, blockTypeHasComputedOnly, prune_block_clean b]

end

mutual

theorem prune_block_idem (b : SchemaBlock) :
    RemoveComputedAttributesFromBlock (RemoveComputedAttributesFromBlock b) =
      RemoveComputedAttributesFromBlock b := by
  cases b with
  | mk attrs blocks desc =>
    simp only [RemoveComputedAttributesFromBlock, SchemaBlock.mk.injEq]
    refine ⟨?_, prune_nested_idem blocks, trivial⟩
    rw [List.filter_filter]
    apply List.filter_congr
    intro p _
    simp

theorem prune_nested_idem (l : List (String × Option SchemaBlockType)) :
    removeComputedNested (removeComputedNested l) = removeComputedNested l := by
  match l with
  | [] => simp [removeComputedNested]
  | (n, none) :: rest => simp [removeComputedNested, prune_nested_idem rest]
  | (n, some bt) :: rest =>
    simp [removeComputedNested, prune_nested_idem rest, prune_blocktype_idem bt]

theorem prune_blocktype_idem (bt : SchemaBlockType) :
    removeComputedBlockType (removeComputedBlockType bt) = removeComputedBlockType bt := by
  match bt with
  | .mk m mi ma none => simp [removeComputedBlockType]
  | .mk m mi ma (some b) => simp [removeComputedBlockType, prune_block_idem b]

end

theorem removeComputedSchema_clean (s : Schema) :
    (match (removeComputedSchema s).block with
     | none => false
     | some b => blockHasComputedOnly b) = false := by
  match s with
  | ⟨none⟩ => simp [removeComputedSchema]
  | ⟨some (.mk attrs blocks desc)⟩ =>
    have h := prune_block_clean (.mk attrs blocks desc)
    simp only [RemoveComputedAttributesFromBlock] at h
    simpa [removeComputedSchema] using h

theorem removeComputedSchema_idem (s : Schema) :
    removeComputedSchema (removeComputedSchema s) = removeComputedSchema s := by
  match s with
  | ⟨none⟩ => simp [removeComputedSchema]
  | ⟨some (.mk attrs blocks desc)⟩ =>
    have h := prune_block_idem (.mk attrs blocks desc)
    simp only [RemoveComputedAttributesFromBlock, SchemaBlock.mk.injEq] at h
    simp [removeComputedSchema, h.1, h.2.1]

/-- Claim C2: for every provider-schema set, after RemoveComputedAttributes
no attribute with computed true, required false and optional false is
present anywhere in the schema tree, at any nesting depth (so no generated
artifact can reference one), and applying RemoveComputedAttributes a second
time changes nothing. -/
theorem removeComputed_resources_clean (rs : List (String × Schema)) :
    (rs.map (fun rv => (rv.1, removeComputedSchema rv.2))).any (fun rv =>
      match rv.2.block with
      | none => false
      | some b => blockHasComputedOnly b) = false := by
  induction rs with
  | nil => rfl
  | cons rv rest ih =>
    simp only [List.map_cons, List.any_cons, ih, Bool.or_false]
    exact removeComputedSchema_clean rv.2

theorem removeComputed_resources_idem (rs : List (String × Schema)) :
    ((rs.map (fun rv => (rv.1, removeComputedSchema rv.2))).map
        (fun rv => (rv.1, removeComputedSchema rv.2))) =
      rs.map (fun rv => (rv.1, removeComputedSchema rv.2)) := by
  induction rs with
  | nil => rfl
  | cons rv rest ih =>
    simp only [List.map_cons, List.cons.injEq]
    exact ⟨congrArg (fun s => (rv.1, s)) (removeComputedSchema_idem rv.2), ih⟩

theorem C2_computed_only_exclusion (ps : ProviderSchemas) :
    schemasHaveComputedOnly (RemoveComputedAttributes ps) = false ∧
    RemoveComputedAttributes (RemoveComputedAttributes ps) = RemoveComputedAttributes ps := by
  obtain ⟨schemas⟩ := ps
  constructor
  · show (schemas.map _).any _ = false
    induction schemas with
    | nil => rfl
    | cons pv rest ih =>
      simp only [List.map_cons, List.any_cons, ih, Bool.or_false]
      exact removeComputed_resources_clean pv.2.resourceSchemas
  · simp only [RemoveComputedAttributes]
    apply congrArg ProviderSchemas.mk
    induction schemas with
    | nil => rfl
    | cons pv rest ih =>
      simp only [List.map_cons, List.cons.injEq]
      exact ⟨congrArg (fun l => (pv.1, ProviderSchema.mk l))
        (removeComputed_resources_idem pv.2.resourceSchemas), ih⟩

/-- Claim C2 witness at a concrete schema: a computed-only attribute at the
top level and one inside a nested block are removed. -/
theorem C2_computed_only_exclusion_witness :
    schemasHaveComputedOnly (RemoveComputedAttributes
      ⟨[("hashicorp/aws", ⟨[("aws_instance", ⟨some (.mk
          [("name", some { computed := true })]
          [("nested_block", some (.mk "single" 0 1 (some (.mk
            [("nested_attr", some { computed := true }),
             ("valid_attr", some { computed := true, optional := true })] [] ""))))] "")⟩)]⟩)]⟩)
      = false :=
  (C2_computed_only_exclusion _).1

theorem lookup_filter_self {α : Type} (m : String) (attrs : List (String × α)) :
    lookupAssoc (attrs.filter (fun p => p.1 ≠ m)) m = none := by
  induction attrs with
  | nil => rfl
  | cons p rest ih =>
    obtain ⟨k, v⟩ := p
    simp only [ne_eq, decide_not] at ih ⊢
    by_cases hk : k = m
    · simp [List.filter_cons, hk, ih]
    · simp [List.filter_cons, hk, lookupAssoc, ih]

theorem lookup_filter_other {α : Type} (m n : String) (hnm : n ≠ m)
    (attrs : List (String × α)) :
    lookupAssoc (attrs.filter (fun p => p.1 ≠ m)) n = lookupAssoc attrs n := by
  induction attrs with
  | nil => rfl
  | cons p rest ih =>
    obtain ⟨k, v⟩ := p
    simp only [ne_eq, decide_not] at ih ⊢
    by_cases hk : k = m
    · subst hk
      simp [List.filter_cons, lookupAssoc, Ne.symm hnm, hnm, ih]
    · by_cases hkn : k = n <;>
        simp [List.filter_cons, hk, lookupAssoc, hkn, hnm, ih]

theorem lookup_deleteAttributes_not_mem (names : List String) :
    ∀ (attrs : List (String × Option SchemaAttribute)) (n : String), ¬ n ∈ names →
      lookupAssoc (deleteAttributes attrs names) n = lookupAssoc attrs n := by
  induction names with
  | nil => intro attrs n _; rfl
  | cons m rest ih =>
    intro attrs n hn
    simp only [List.mem_cons, not_or] at hn
    have step : deleteAttributes attrs (m :: rest) =
        deleteAttributes (attrs.filter (fun p => p.1 ≠ m)) rest := rfl
    rw [step, ih _ n hn.2, lookup_filter_other m n hn.1]

theorem lookup_deleteAttributes_mem (names : List String) :
    ∀ (attrs : List (String × Option SchemaAttribute)) (n : String), n ∈ names →
      lookupAssoc (deleteAttributes attrs names) n = none := by
  induction names with
  | nil => intro attrs n h; cases h
  | cons m rest ih =>
    intro attrs n hn
    have step : deleteAttributes attrs (m :: rest) =
        deleteAttributes (attrs.filter (fun p => p.1 ≠ m)) rest := rfl
    rcases List.mem_cons.mp hn with h | h
    · subst h
      by_cases hr : n ∈ rest
      · rw [step]; exact ih _ n hr
      · rw [step, lookup_deleteAttributes_not_mem rest _ n hr, lookup_filter_self]
    · rw [step]; exact ih _ n h

theorem select_single_match (vk rk : String) (names : List String)
    (h : rk.data.isPrefixOf vk.data = true) :
    selectInvalidAttributes [(vk, names)] rk = names := by
  simp [selectInvalidAttributes, List.find?, h]

theorem select_single_no_match (vk rk : String) (names : List String)
    (h : rk.data.isPrefixOf vk.data = false) :
    selectInvalidAttributes [(vk, names)] rk = [] := by
  simp [selectInvalidAttributes, List.find?, h]

/-- Claim C5: with a rejection map holding one entry whose key the resource
key prefix-matches and whose attribute list contains the name type, the
resource attribute set no longer contains type afterwards; attributes not
named by the entry are untouched, and a named attribute that is absent from
the schema causes no failure (the embedded function is total, the Go
function only logs); an entry whose key the resource key does not
prefix-match is not applied at all. -/
theorem C5_repair_removal :
    (∀ (attrs : List (String × Option SchemaAttribute))
        (blocks : List (String × Option SchemaBlockType))
        (desc rk vk : String) (names : List String),
      rk.data.isPrefixOf vk.data = true → "type" ∈ names →
      lookupAssoc (schemaAttrs (removeInvalidFromResource [(vk, names)] rk
        ⟨some (.mk attrs blocks desc)⟩)) "type" = none ∧
      (∀ n, ¬ n ∈ names →
        lookupAssoc (schemaAttrs (removeInvalidFromResource [(vk, names)] rk
          ⟨some (.mk attrs blocks desc)⟩)) n = lookupAssoc attrs n)) ∧
    (∀ (s : Schema) (rk vk : String) (names : List String),
      rk.data.isPrefixOf vk.data = false →
      removeInvalidFromResource [(vk, names)] rk s = s) := by
  constructor
  · intro attrs blocks desc rk vk names hpre hmem
    have hne : names.isEmpty = false := by
      cases names with
      | nil => cases hmem
      | cons a l => rfl
    have hres : removeInvalidFromResource [(vk, names)] rk ⟨some (.mk attrs blocks desc)⟩ =
        ⟨some (.mk (deleteAttributes attrs names) blocks desc)⟩ := by
      simp [removeInvalidFromResource, select_single_match vk rk names hpre, hne]
    constructor
    · rw [hres]
      exact lookup_deleteAttributes_mem names attrs "type" hmem
    · intro n hn
      rw [hres]
      exact lookup_deleteAttributes_not_mem names attrs n hn
  · intro s rk vk names hpre
    match s with
    | ⟨none⟩ => rfl
    | ⟨some (.mk attrs blocks desc)⟩ =>
      simp [removeInvalidFromResource, select_single_no_match vk rk names hpre]

/-- Claim C5 witness: the schema of the spec example, attributes name and
type, rejection map aws_instance to [type, nonexistent_attr]; afterwards
type is gone and name is untouched, with no failure for the absent
nonexistent_attr. -/
theorem C5_repair_removal_witness :
    lookupAssoc (schemaAttrs (removeInvalidFromResource
      [("aws_instance", ["type", "nonexistent_attr"])] "aws_instance"
      ⟨some (.mk [("name", some {}), ("type", some {})] [] "")⟩)) "type" = none ∧
    lookupAssoc (schemaAttrs (removeInvalidFromResource
      [("aws_instance", ["type", "nonexistent_attr"])] "aws_instance"
      ⟨some (.mk [("name", some {}), ("type", some {})] [] "")⟩)) "name" =
      lookupAssoc [("name", some {}), ("type", (some {} : Option SchemaAttribute))] "name" := by
  have h := (C5_repair_removal.1 [("name", some {}), ("type", some {})] [] ""
    "aws_instance" "aws_instance" ["type", "nonexistent_attr"] (by decide) (by decide))
  exact ⟨h.1, h.2 "name" (by decide)⟩

theorem select_two_first (k1 k2 rk : String) (a1 a2 : List String)
    (h1 : rk.data.isPrefixOf k1.data = true) :
    selectInvalidAttributes [(k1, a1), (k2, a2)] rk = a1 := by
  simp [selectInvalidAttributes, List.find?, h1]

/-- Claim C10: RemoveInvalidAttributesFromSchema applies at most one
rejection entry per resource: with two entries whose keys both have the
resource key as a prefix, only the first entry is selected and only its
attribute names are deleted, so an attribute named only by the second entry
survives. -/
theorem C10_single_entry_applied
    (attrs : List (String × Option SchemaAttribute))
    (blocks : List (String × Option SchemaBlockType))
    (desc rk k1 k2 : String) (a1 a2 : List String) (x : String)
    (h1 : rk.data.isPrefixOf k1.data = true) (h2 : rk.data.isPrefixOf k2.data = true)
    (hx2 : x ∈ a2) (hx1 : ¬ x ∈ a1) :
    selectInvalidAttributes [(k1, a1), (k2, a2)] rk = a1 ∧
    lookupAssoc (schemaAttrs (removeInvalidFromResource [(k1, a1), (k2, a2)] rk
      ⟨some (.mk attrs blocks desc)⟩)) x = lookupAssoc attrs x := by
  refine ⟨select_two_first k1 k2 rk a1 a2 h1, ?_⟩
  by_cases he : a1.isEmpty
  · have ha : a1 = [] := by
      cases a1 with
      | nil => rfl
      | cons h t => cases he
    subst ha
    simp [removeInvalidFromResource, select_two_first k1 k2 rk [] a2 h1, schemaAttrs,
      SchemaBlock.attributes]
  · have hres : removeInvalidFromResource [(k1, a1), (k2, a2)] rk ⟨some (.mk attrs blocks desc)⟩ =
        ⟨some (.mk (deleteAttributes attrs a1) blocks desc)⟩ := by
      simp only [removeInvalidFromResource, select_two_first k1 k2 rk a1 a2 h1]
      simp [he]
    rw [hres]
    exact lookup_deleteAttributes_not_mem a1 attrs x hx1

/-- Claim C10 witness: rejection entries aws_instance to [type] and
aws_instance.this to [name] both prefix-match resource aws_instance; only
the first is applied, name survives. -/
theorem C10_single_entry_applied_witness :
    selectInvalidAttributes [("aws_instance", ["type"]), ("aws_instance.this", ["name"])]
      "aws_instance" = ["type"] ∧
    lookupAssoc (schemaAttrs (removeInvalidFromResource
      [("aws_instance", ["type"]), ("aws_instance.this", ["name"])] "aws_instance"
      ⟨some (.mk [("name", some {}), ("type", some {})] [] "")⟩)) "name" =
      lookupAssoc [("name", some {}), ("type", (some {} : Option SchemaAttribute))] "name" :=
  C10_single_entry_applied [("name", some {}), ("type", some {})] [] "" "aws_instance"
    "aws_instance" "aws_instance.this" ["type"] ["name"] "name"
    (by decide) (by decide) (by decide) (by decide)

/-- No two adjacent blank lines. -/
def NoTwoBlank (l : List String) : Prop :=
  List.Chain' (fun a b => ¬(isBlankLine a = true ∧ isBlankLine b = true)) l

theorem blank_not_brace {s : String} (h : isBlankLine s = true) : isBraceLine s = false := by
  simp only [isBlankLine, List.all_eq_true] at h
  simp only [isBraceLine]
  have : s.data.dropWhile (fun c => regexSpace c) = [] := by
    rw [List.dropWhile_eq_nil_iff]
    intro x hx
    exact h x hx
  simp [this]

theorem collapse_true_head :
    ∀ (l : List String) (a : String), (collapseRuns true l).head? = some a →
      isBlankLine a = false := by
  intro l
  induction l with
  | nil => intro a h; cases h
  | cons x rest ih =>
    intro a h
    by_cases hx : isBlankLine x = true
    · rw [show collapseRuns true (x :: rest) = collapseRuns true rest by
        simp [collapseRuns, hx]] at h
      exact ih a h
    · rw [show collapseRuns true (x :: rest) = x :: collapseRuns false rest by
        simp [collapseRuns, hx]] at h
      simp only [List.head?_cons, Option.some.injEq] at h
      subst h
      simpa using hx

theorem collapse_noTwo :
    ∀ l : List String, NoTwoBlank (collapseRuns false l) ∧ NoTwoBlank (collapseRuns true l) := by
  intro l
  induction l with
  | nil => exact ⟨List.chain'_nil, List.chain'_nil⟩
  | cons x rest ih =>
    by_cases hx : isBlankLine x = true
    · have htrue : collapseRuns true (x :: rest) = collapseRuns true rest := by
        simp [collapseRuns, hx]
      refine ⟨?_, htrue ▸ ih.2⟩
      match rest with
      | [] =>
        rw [show collapseRuns false [x] = [x] by simp [collapseRuns, hx]]
        exact List.chain'_singleton x
      | b :: t =>
        by_cases hb : isBlankLine b = true
        · rw [show collapseRuns false (x :: b :: t) = "" :: collapseRuns true (b :: t) by
            simp [collapseRuns, hx, hb]]
          refine List.chain'_cons'.mpr ⟨?_, ih.2⟩
          intro h hh
          have := collapse_true_head (b :: t) h hh
          simp [this]
        · rw [show collapseRuns false (x :: b :: t) = x :: collapseRuns false (b :: t) by
            simp [collapseRuns, hx, hb]]
          refine List.chain'_cons'.mpr ⟨?_, ih.1⟩
          intro h hh
          rw [show collapseRuns false (b :: t) = b :: collapseRuns false t by
            simp [collapseRuns, hb]] at hh
          simp only [List.head?_cons, Option.mem_def, Option.some.injEq] at hh
          subst hh
          simp [hb]
    · have hcommon : ∀ fl : Bool, collapseRuns fl (x :: rest) = x :: collapseRuns false rest := by
        intro fl
        cases fl <;> simp [collapseRuns, hx]
      constructor <;> rw [hcommon]
      all_goals
        refine List.chain'_cons'.mpr ⟨?_, ih.1⟩
        intro h _
        simp [hx]

theorem collapse_id_of_noTwo :
    ∀ l : List String, NoTwoBlank l → collapseRuns false l = l := by
  intro l
  induction l with
  | nil => intro _; rfl
  | cons x rest ih =>
    intro hc
    have h := List.chain'_cons'.mp hc
    by_cases hx : isBlankLine x = true
    · match rest with
      | [] => simp [collapseRuns, hx]
      | b :: t =>
        have hb : isBlankLine b = false := by
          have := h.1 b rfl
          by_contra hc
          simp only [Bool.not_eq_false] at hc
          exact this ⟨hx, hc⟩
        rw [show collapseRuns false (x :: b :: t) = x :: collapseRuns false (b :: t) by
          simp [collapseRuns, hx, hb]]
        rw [ih h.2]
    · rw [show collapseRuns false (x :: rest) = x :: collapseRuns false rest by
        simp [collapseRuns, hx]]
      rw [ih h.2]

theorem rbRev_true_head :
    ∀ (l : List String) (a : String), (removeBlanksRev true l).head? = some a →
      isBlankLine a = false := by
  intro l
  induction l with
  | nil => intro a h; cases h
  | cons x rest ih =>
    intro a h
    by_cases hx : isBlankLine x = true
    · rw [show removeBlanksRev true (x :: rest) = removeBlanksRev true rest by
        simp [removeBlanksRev, hx]] at h
      exact ih a h
    · rw [show removeBlanksRev true (x :: rest) = x :: removeBlanksRev (isBraceLine x) rest by
        simp [removeBlanksRev, hx]] at h
      simp only [List.head?_cons, Option.some.injEq] at h
      subst h
      simpa using hx

theorem rbRev_noTwo :
    ∀ (l : List String) (below : Bool), NoTwoBlank l → NoTwoBlank (removeBlanksRev below l) := by
  intro l
  induction l with
  | nil => intro below _; exact List.chain'_nil
  | cons x rest ih =>
    intro below hc
    have h := List.chain'_cons'.mp hc
    by_cases hcond : (isBlankLine x && below) = true
    · rw [show removeBlanksRev below (x :: rest) = removeBlanksRev true rest by
        simp only [removeBlanksRev, hcond, if_pos]]
      exact ih true h.2
    · rw [show removeBlanksRev below (x :: rest) = x :: removeBlanksRev (isBraceLine x) rest by
        simp only [removeBlanksRev, hcond, if_neg, Bool.false_eq_true, not_false_iff]]
      refine List.chain'_cons'.mpr ⟨?_, ih (isBraceLine x) h.2⟩
      intro a ha
      by_cases hx : isBlankLine x = true
      · rw [blank_not_brace hx] at ha
        match rest, h with
        | [], _ => cases ha
        | b :: t, h =>
          by_cases hb : isBlankLine b = true
          · exact absurd ⟨hx, hb⟩ (h.1 b rfl)
          · rw [show removeBlanksRev false (b :: t) = b :: removeBlanksRev (isBraceLine b) t by
              simp [removeBlanksRev, hb]] at ha
            simp only [List.head?_cons, Option.mem_def, Option.some.injEq] at ha
            subst ha
            intro hcontra
            exact absurd hcontra.2 (by simp [hb])
      · intro hc
        exact absurd hc.1 (by simpa using hx)

theorem rbRev_idem :
    ∀ (l : List String) (below : Bool),
      removeBlanksRev below (removeBlanksRev below l) = removeBlanksRev below l := by
  intro l
  induction l with
  | nil => intro below; rfl
  | cons x rest ih =>
    intro below
    by_cases hcond : (isBlankLine x && below) = true
    · rw [show removeBlanksRev below (x :: rest) = removeBlanksRev true rest by
        simp only [removeBlanksRev, hcond, if_pos]]
      have hbelow : below = true := by
        cases below with
        | false => simp at hcond
        | true => rfl
      rw [hbelow]
      exact ih true
    · rw [show removeBlanksRev below (x :: rest) = x :: removeBlanksRev (isBraceLine x) rest by
        simp only [removeBlanksRev, hcond, if_neg, Bool.false_eq_true, not_false_iff]]
      rw [show removeBlanksRev below (x :: removeBlanksRev (isBraceLine x) rest) =
          x :: removeBlanksRev (isBraceLine x) (removeBlanksRev (isBraceLine x) rest) by
        simp only [removeBlanksRev, hcond, if_neg, Bool.false_eq_true, not_false_iff]]
      rw [ih (isBraceLine x)]

theorem noTwoBlank_reverse {l : List String} : NoTwoBlank l.reverse ↔ NoTwoBlank l := by
  unfold NoTwoBlank
  rw [List.chain'_reverse]
  constructor <;> intro h <;> exact h.imp (fun a b hab => by tauto)

theorem removeBlanksBeforeBrace_noTwo (l : List String) (tail : String) (h : NoTwoBlank l) :
    NoTwoBlank (removeBlanksBeforeBrace l tail) := by
  unfold removeBlanksBeforeBrace
  rw [noTwoBlank_reverse]
  exact rbRev_noTwo l.reverse (isBraceLine tail) (noTwoBlank_reverse.mpr h)

theorem removeBlanksBeforeBrace_idem (l : List String) (tail : String) :
    removeBlanksBeforeBrace (removeBlanksBeforeBrace l tail) tail =
      removeBlanksBeforeBrace l tail := by
  unfold removeBlanksBeforeBrace
  rw [List.reverse_reverse, rbRev_idem]

theorem dropLast_append_one (l : List String) (a : String) : (l ++ [a]).dropLast = l := by
  simp

theorem getLastD_append_one (l : List String) (a d : String) : (l ++ [a]).getLastD d = a := by
  cases l <;> simp [List.getLastD]

/-- Claim C9: the cosmetic cleanup pass of cleanupHCLFile (collapse runs of
two or more blank lines to one blank line, then remove blank lines
immediately preceding a closing brace) is idempotent: applying the pass
twice to any text, given as its list of lines, produces the same output as
applying it once. -/
theorem C9_cleanup_idempotent (ls : List String) :
    cleanupPass (cleanupPass ls) = cleanupPass ls := by
  have hdef : ∀ l : List String, cleanupPass l =
      removeBlanksBeforeBrace (collapseRuns false l.dropLast) (l.getLastD "") ++
        [l.getLastD ""] := fun _ => rfl
  have hxnt : NoTwoBlank (removeBlanksBeforeBrace (collapseRuns false ls.dropLast)
      (ls.getLastD "")) :=
    removeBlanksBeforeBrace_noTwo _ _ (collapse_noTwo ls.dropLast).1
  simp only [hdef, dropLast_append_one, getLastD_append_one]
  rw [collapse_id_of_noTwo _ hxnt, removeBlanksBeforeBrace_idem]

/-- Claim C4: per error diagnostic with a resolved address, the attribute
extraction chain is consulted in the order detail pattern, summary
cannot-be-set pattern, summary unknown-key pattern, snippet-code fallback;
when the detail pattern matches, the matched name is recorded for the
address and the summary and snippet fallbacks are not consulted (the result
does not depend on them). -/
theorem C4_extraction_precedence :
    (∀ (m : List (String × List String)) (addr summary detail : String) (snip : Snippet)
        (name : String), addr ≠ "" → extractFromDetail detail = some name →
      processDiagnostic m ⟨"error", addr, summary, detail, snip⟩ = appendKey m addr name) ∧
    (∀ (m : List (String × List String)) (addr summary detail : String) (snip : Snippet)
        (name : String), addr ≠ "" →
      extractFromDetail detail = none → extractCannotBeSet summary = some name →
      processDiagnostic m ⟨"error", addr, summary, detail, snip⟩ = appendKey m addr name) ∧
    (∀ (m : List (String × List String)) (addr summary detail : String) (snip : Snippet)
        (name : String), addr ≠ "" →
      extractFromDetail detail = none → extractCannotBeSet summary = none →
      extractUnknownKey summary = some name →
      processDiagnostic m ⟨"error", addr, summary, detail, snip⟩ = appendKey m addr name) ∧
    (∀ (m : List (String × List String)) (addr summary detail : String) (snip : Snippet),
      addr ≠ "" →
      extractFromDetail detail = none → extractCannotBeSet summary = none →
      extractUnknownKey summary = none →
      processDiagnostic m ⟨"error", addr, summary, detail, snip⟩ =
        match extractFromCode snip.code with
        | some name => appendKey m addr name
        | none => m) := by
  refine ⟨?_, ?_, ?_, ?_⟩
  · intro m addr summary detail snip name ha hd
    simp [processDiagnostic, resolveAddress, ha, extractAttribute, hd]
  · intro m addr summary detail snip name ha hd hs
    simp [processDiagnostic, resolveAddress, ha, extractAttribute, hd, hs]
  · intro m addr summary detail snip name ha hd hs hu
    simp [processDiagnostic, resolveAddress, ha, extractAttribute, hd, hs, hu]
  · intro m addr summary detail snip ha hd hs hu
    cases hc : extractFromCode snip.code with
    | none => simp [processDiagnostic, resolveAddress, ha, extractAttribute, hd, hs, hu, hc]
    | some name => simp [processDiagnostic, resolveAddress, ha, extractAttribute, hd, hs, hu, hc]

/-- Claim C4 witness: the diagnostic of the spec example, with a populated
detail naming user_data and a populated summary naming key_name, records
user_data (the detail pattern wins). -/
theorem C4_extraction_precedence_witness :
    processDiagnostic [] ⟨"error", "aws_instance.example",
        "\"key_name\": this field cannot be set",
        String.mk (cantConfigureLit ++ ("user_data\"").data), {}⟩ =
      [("aws_instance.example", ["user_data"])] := by
  have h := C4_extraction_precedence.1 [] "aws_instance.example"
    "\"key_name\": this field cannot be set"
    (String.mk (cantConfigureLit ++ ("user_data\"").data)) {} "user_data"
    (by decide) (by decide)
  rw [h]
  decide

theorem except_foldl_error {α β ε : Type} (l : List α) (g : α → β → Except ε β) (e : ε) :
    l.foldl (fun acc x => acc.bind (g x)) (Except.error e) = Except.error e := by
  induction l with
  | nil => rfl
  | cons x rest ih =>
    rw [List.foldl_cons]
    exact ih

theorem except_foldl_isOk {α β ε : Type} (l : List α) (g : α → β → Except ε β)
    (okP : α → Bool) (hg : ∀ x s, isOkE (g x s) = okP x) :
    ∀ s : β, isOkE (l.foldl (fun acc x => acc.bind (g x)) (Except.ok s)) = l.all okP := by
  induction l with
  | nil => intro s; rfl
  | cons x rest ih =>
    intro s
    rw [List.foldl_cons, List.all_cons]
    cases hx : g x s with
    | error e =>
      have h1 : (Except.ok s).bind (g x) = Except.error e := by
        simp [Except.bind, hx]
      have h2 : okP x = false := by rw [← hg x s, hx]; rfl
      rw [h1, except_foldl_error, h2]
      rfl
    | ok s2 =>
      have h1 : (Except.ok s).bind (g x) = Except.ok s2 := by
        simp [Except.bind, hx]
      have h2 : okP x = true := by rw [← hg x s, hx]; rfl
      rw [h1, ih s2, h2, Bool.true_and]

theorem isOkE_map {ε α β : Type} (f : α → β) (v : Except ε α) :
    isOkE (v.map f) = isOkE v := by
  cases v <;> rfl

theorem decodeStringField_isOk (cur : String) (v : Json) :
    isOkE (decodeStringField cur v) = strFieldOk v := by
  cases v <;> rfl

theorem decodeSnippet_isOk (cur : Snippet) (v : Json) :
    isOkE (decodeSnippet cur v) = snippetOk v := by
  cases v with
  | jobj fields =>
    exact except_foldl_isOk fields
      (fun kv s =>
        if keyMatches kv.1 "context" then
          (decodeStringField s.context kv.2).map (fun w => { s with context := w })
        else if keyMatches kv.1 "code" then
          (decodeStringField s.code kv.2).map (fun w => { s with code := w })
        else .ok s)
      (fun kv => if keyMatches kv.1 "context" || keyMatches kv.1 "code" then strFieldOk kv.2
        else true)
      (by
        intro kv s
        by_cases h1 : keyMatches kv.1 "context" = true
        · simp [h1, isOkE_map, decodeStringField_isOk]
        · by_cases h2 : keyMatches kv.1 "code" = true
          · simp [h1, h2, isOkE_map, decodeStringField_isOk]
          · simp [h1, h2, isOkE]) cur
  | null => rfl
  | jbool b => rfl
  | jnum raw => rfl
  | jstr s => rfl
  | jarr elems => rfl

theorem decodeDiagnostic_isOk (v : Json) :
    isOkE (decodeDiagnostic v) = diagnosticOk v := by
  cases v with
  | jobj fields =>
    exact except_foldl_isOk fields
      (fun (kv : String × Json) (d : Diagnostic) =>
        if keyMatches kv.1 "severity" then
          (decodeStringField d.severity kv.2).map (fun w => { d with severity := w })
        else if keyMatches kv.1 "address" then
          (decodeStringField d.address kv.2).map (fun w => { d with address := w })
        else if keyMatches kv.1 "summary" then
          (decodeStringField d.summary kv.2).map (fun w => { d with summary := w })
        else if keyMatches kv.1 "detail" then
          (decodeStringField d.detail kv.2).map (fun w => { d with detail := w })
        else if keyMatches kv.1 "snippet" then
          (decodeSnippet d.snippet kv.2).map (fun w => { d with snippet := w })
        else .ok d)
      (fun kv =>
        if keyMatches kv.1 "severity" || keyMatches kv.1 "address" ||
           keyMatches kv.1 "summary" || keyMatches kv.1 "detail" then strFieldOk kv.2
        else if keyMatches kv.1 "snippet" then snippetOk kv.2
        else true)
      (by
        intro kv d
        by_cases h1 : keyMatches kv.1 "severity" = true
        · simp [h1, isOkE_map, decodeStringField_isOk]
        · by_cases h2 : keyMatches kv.1 "address" = true
          · simp [h1, h2, isOkE_map, decodeStringField_isOk]
          · by_cases h3 : keyMatches kv.1 "summary" = true
            · simp [h1, h2, h3, isOkE_map, decodeStringField_isOk]
            · by_cases h4 : keyMatches kv.1 "detail" = true
              · simp [h1, h2, h3, h4, isOkE_map, decodeStringField_isOk]
              · by_cases h5 : keyMatches kv.1 "snippet" = true
                · simp [h1, h2, h3, h4, h5, isOkE_map, decodeSnippet_isOk]
                · simp [h1, h2, h3, h4, h5, isOkE]) {}
  | null => rfl
  | jbool b => rfl
  | jnum raw => rfl
  | jstr s => rfl
  | jarr elems => rfl

theorem decodeDiagnosticList_isOk (v : Json) :
    isOkE (decodeDiagnosticList v) = diagnosticListOk v := by
  cases v with
  | jarr elems =>
    show isOkE (elems.foldr _ (Except.ok [])) = elems.all _
    induction elems with
    | nil => rfl
    | cons e rest ih =>
      rw [List.foldr_cons, List.all_cons]
      cases he : decodeDiagnostic e with
      | error err =>
        have h2 : diagnosticOk e = false := by rw [← decodeDiagnostic_isOk, he]; rfl
        rw [h2]
        rfl
      | ok d =>
        have h2 : diagnosticOk e = true := by rw [← decodeDiagnostic_isOk, he]; rfl
        rw [h2, Bool.true_and, ← ih]
        cases rest.foldr (fun e acc => (decodeDiagnostic e).bind
          (fun d => acc.map (fun ds => d :: ds))) (Except.ok []) <;> rfl
  | null => rfl
  | jbool b => rfl
  | jnum raw => rfl
  | jstr s => rfl
  | jobj fields => rfl

theorem decodeValidateOutput_isOk (v : Json) :
    isOkE (decodeValidateOutput v) = validateOutputParsable v := by
  cases v with
  | jobj fields =>
    exact except_foldl_isOk fields
      (fun kv ds => if keyMatches kv.1 "diagnostics" then decodeDiagnosticList kv.2 else .ok ds)
      (fun kv => if keyMatches kv.1 "diagnostics" then diagnosticListOk kv.2 else true)
      (by
        intro kv ds
        by_cases h1 : keyMatches kv.1 "diagnostics" = true
        · simp [h1, decodeDiagnosticList_isOk]
        · simp [h1, isOkE]) []
  | null => rfl
  | jbool b => rfl
  | jnum raw => rfl
  | jstr s => rfl
  | jarr elems => rfl

theorem processDiagnostics_filter (ds : List Diagnostic) :
    ∀ m, ds.foldl processDiagnostic m =
      (ds.filter (fun d => d.severity = "error")).foldl processDiagnostic m := by
  induction ds with
  | nil => intro m; rfl
  | cons d rest ih =>
    intro m
    by_cases hs : d.severity = "error"
    · rw [List.foldl_cons,
        show (d :: rest).filter (fun d => d.severity = "error") =
          d :: rest.filter (fun d => d.severity = "error") by simp [List.filter_cons, hs],
        List.foldl_cons]
      exact ih (processDiagnostic m d)
    · rw [List.foldl_cons,
        show (d :: rest).filter (fun d => d.severity = "error") =
          rest.filter (fun d => d.severity = "error") by simp [List.filter_cons, hs],
        show processDiagnostic m d = m by simp [processDiagnostic, hs]]
      exact ih m

/-- Claim C8: ParseValidationErrorsFromJSON yields an error exactly when its
input is not parsable as the diagnostics JSON object (the Except value also
carries no mapping in that case, as the Go function returns nil with the
error); every parsable input yields a possibly empty mapping with no error;
diagnostics whose severity is not error, and error diagnostics that resolve
no address, contribute nothing to the mapping. -/
theorem C8_parse_error_contract :
    (∀ j : Json, isOkE (ParseValidationErrorsFromJSON j) = validateOutputParsable j) ∧
    (∀ ds : List Diagnostic, processDiagnostics ds =
      processDiagnostics (ds.filter (fun d => d.severity = "error"))) ∧
    (∀ (m : List (String × List String)) (d : Diagnostic), d.severity = "error" →
      resolveAddress d = none → processDiagnostic m d = m) := by
  refine ⟨?_, ?_, ?_⟩
  · intro j
    rw [ParseValidationErrorsFromJSON, isOkE_map]
    exact decodeValidateOutput_isOk j
  · intro ds
    exact processDiagnostics_filter ds []
  · intro m d hs hr
    simp [processDiagnostic, hs, hr]

/-- Claim C8 witness: an error diagnostic with no address and no context
contributes nothing; a concrete parsable and a concrete unparsable input. -/
theorem C8_parse_error_contract_witness :
    processDiagnostic [] { severity := "error" } = [] ∧
    isOkE (ParseValidationErrorsFromJSON (.jobj [("diagnostics", .jarr [])])) = true ∧
    isOkE (ParseValidationErrorsFromJSON (.jstr "INVALID_JSON")) = false := by
  refine ⟨C8_parse_error_contract.2.2 [] { severity := "error" } rfl rfl, ?_, ?_⟩
  · rw [C8_parse_error_contract.1]
    decide
  · rw [C8_parse_error_contract.1]
    decide

/-- Claim C3: for the resource schema with attributes ami (required string)
and tags (optional map of string), single mode emits ami = var.ami and
tags = var.tags in the skeleton; the same schema for resource type
aws_instance in multiple mode emits exactly one declaration named instances
typed as a list of object, and a skeleton whose resource block has a keyed
for_each over coalesce(var.instances, []) keyed by each element name, with
every attribute reference prefixed by each.value instead of var. -/
theorem C3_cardinality_duality :
    CreateMainTF
        [("registry.terraform.io/hashicorp/aws", ⟨[("aws_instance", ⟨some (.mk
          [("ami", some { attributeType := .string, required := true }),
           ("tags", some { attributeType := .map .string, optional := true })] [] "")⟩)]⟩)]
        [⟨"aws_instance", "single", ⟨"hashicorp", "aws"⟩⟩] =
      [⟨"aws_instance", none,
        [.attr "ami" "var.ami", .attr "tags" "var.tags"]⟩] ∧
    CreateMainTF
        [("registry.terraform.io/hashicorp/aws", ⟨[("aws_instance", ⟨some (.mk
          [("ami", some { attributeType := .string, required := true }),
           ("tags", some { attributeType := .map .string, optional := true })] [] "")⟩)]⟩)]
        [⟨"aws_instance", "multiple", ⟨"hashicorp", "aws"⟩⟩] =
      [⟨"aws_instance", some "\x7b for i in coalesce(var.instances, []) : i.name => i \x7d",
        [.attr "ami" "each.value.ami", .attr "tags" "each.value.tags"]⟩] ∧
    CreateVariablesTF
        [("registry.terraform.io/hashicorp/aws", ⟨[("aws_instance", ⟨some (.mk
          [("ami", some { attributeType := .string, required := true }),
           ("tags", some { attributeType := .map .string, optional := true })] [] "")⟩)]⟩)]
        [⟨"aws_instance", "multiple", ⟨"hashicorp", "aws"⟩⟩] =
      [⟨"instances", true, "list(object(\x7b",
        [.attrF "ami" "string", .attrF "tags" "optional(map(string))"], true, none⟩] :=
  ⟨rfl, rfl, rfl⟩

/-- Claim C6 (amended): for a single-cardinality resource, a top-level valid
nested block is declared with an object type exactly when maxItems equals
one and with a list-of-object type otherwise (the nesting mode is not
consulted at the top level), and the declaration is given default null
exactly when minItems equals zero. -/
theorem C6_single_block_shape (n mode : String) (mi ma : Int) (inner : SchemaBlock)
    (desc : String) :
    createVariablesSingle (.mk [] [(n, some (.mk mode mi ma (some inner)))] desc) =
      [⟨n, true, if ma ≠ 1 then "list(object(\x7b" else "object(\x7b",
        handleAttributesAndNestedBlocksForVariable inner true, mi = 0, none⟩] := by
  simp [createVariablesSingle, rawSingleBlockDecls, sortByName, List.insertionSort,
    List.orderedInsert]

/-- Claim C6 counterexample: a top-level nested block with nesting mode
single but maxItems zero is declared list(object(, not object(, refuting
the claim that nestingMode single alone selects the object shape. -/
theorem C6_single_block_shape_counterexample :
    (createVariablesSingle (.mk []
        [("root_block", some (.mk "single" 0 0 (some (.mk [] [] ""))))] "")).map
      (fun d => (d.varName, d.typeRendering, d.hasDefaultNull)) =
      [("root_block", "list(object(\x7b", true)] ∧
    ("list(object(\x7b" : String) ≠ "object(\x7b" := by
  constructor
  · rfl
  · decide

theorem lexLe_trans : ∀ {x y z : List Char}, lexLe x y → lexLe y z → lexLe x z
  | [], _, _, _, _ => by simp [lexLe]
  | a :: as, [], _, h, _ => by simp [lexLe] at h
  | a :: as, b :: bs, [], _, h => by simp [lexLe] at h
  | a :: as, b :: bs, c :: cs, h1, h2 => by
    simp only [lexLe] at h1 h2 ⊢
    by_cases hab : a = b
    · subst hab
      by_cases hbc : a = c
      · subst hbc
        simp at h1 h2 ⊢
        exact lexLe_trans h1 h2
      · simp [hbc] at h1 h2 ⊢
        exact h2
    · by_cases hbc : b = c
      · subst hbc
        simp [hab] at h1 ⊢
        exact h1
      · simp [hab, hbc] at h1 h2
        have hac : a < c := lt_trans h1 h2
        have hne : a ≠ c := ne_of_lt hac
        simp [hne, hac]

theorem lexLe_total : ∀ (x y : List Char), lexLe x y ∨ lexLe y x
  | [], _ => Or.inl (by simp [lexLe])
  | _ :: _, [] => Or.inr (by simp [lexLe])
  | a :: as, b :: bs => by
    by_cases hab : a = b
    · subst hab
      rcases lexLe_total as bs with h | h
      · exact Or.inl (by simpa [lexLe] using h)
      · exact Or.inr (by simpa [lexLe] using h)
    · rcases lt_trichotomy a b with h | h | h
      · exact Or.inl (by simp [lexLe, hab, h])
      · exact absurd h hab
      · exact Or.inr (by simp [lexLe, Ne.symm hab, h])

theorem map_orderedInsert_key {α β : Type} (key : α → String) (key2 : β → String) (f : α → β)
    (hf : ∀ a, key2 (f a) = key a) (x : α) :
    ∀ l : List α,
      (List.orderedInsert (fun a b => strLe (key a) (key b) = true) x l).map f =
        List.orderedInsert (fun a b => strLe (key2 a) (key2 b) = true) (f x) (l.map f)
  | [] => rfl
  | y :: t => by
    simp only [List.orderedInsert, List.map_cons]
    by_cases h : strLe (key x) (key y) = true
    · rw [if_pos h, if_pos (by rw [hf, hf]; exact h)]
      simp
    · rw [if_neg h, if_neg (by rw [hf, hf]; exact h)]
      rw [List.map_cons, map_orderedInsert_key key key2 f hf x t]

theorem map_insertionSort_key {α β : Type} (key : α → String) (key2 : β → String) (f : α → β)
    (hf : ∀ a, key2 (f a) = key a) :
    ∀ l : List α,
      (List.insertionSort (fun a b => strLe (key a) (key b) = true) l).map f =
        List.insertionSort (fun a b => strLe (key2 a) (key2 b) = true) (l.map f)
  | [] => rfl
  | x :: t => by
    simp only [List.insertionSort, List.map_cons]
    rw [map_orderedInsert_key key key2 f hf, map_insertionSort_key key key2 f hf t]

theorem mainItemEntry_fst (i : MainItem) : (mainItemEntry i).1 = i.name := by
  cases i <;> rfl

theorem vfieldEntry_fst (v : VField) : (vfieldEntry v).1 = v.name := by
  cases v <;> rfl

theorem declEntry_fst (d : VariableDecl) : (declEntry d).1 = d.varName := rfl

theorem mainTreeEntries_eq_map : ∀ l : List MainItem, mainTreeEntries l = l.map mainItemEntry
  | [] => rfl
  | i :: rest => by rw [mainTreeEntries, List.map_cons, mainTreeEntries_eq_map rest]

theorem varTreeEntries_eq_map : ∀ l : List VField, varTreeEntries l = l.map vfieldEntry
  | [] => rfl
  | f :: rest => by rw [varTreeEntries, List.map_cons, varTreeEntries_eq_map rest]

theorem mainTreeEntries_sortByName (l : List MainItem) :
    mainTreeEntries (sortByName MainItem.name l) =
      List.insertionSort (fun a b => strLe a.1 b.1 = true) (mainTreeEntries l) := by
  rw [mainTreeEntries_eq_map, mainTreeEntries_eq_map, sortByName]
  exact map_insertionSort_key MainItem.name Prod.fst mainItemEntry mainItemEntry_fst l

theorem varTreeEntries_sortByName (l : List VField) :
    varTreeEntries (sortByName VField.name l) =
      List.insertionSort (fun a b => strLe a.1 b.1 = true) (varTreeEntries l) := by
  rw [varTreeEntries_eq_map, varTreeEntries_eq_map, sortByName]
  exact map_insertionSort_key VField.name Prod.fst vfieldEntry vfieldEntry_fst l

theorem singleDeclEntries_sortByName (l : List VariableDecl) :
    singleDeclEntries (sortByName VariableDecl.varName l) =
      List.insertionSort (fun a b => strLe a.1 b.1 = true) (singleDeclEntries l) := by
  unfold singleDeclEntries
  rw [sortByName]
  exact map_insertionSort_key VariableDecl.varName Prod.fst declEntry declEntry_fst l

theorem mainTreeEntries_append (l1 l2 : List MainItem) :
    mainTreeEntries (l1 ++ l2) = mainTreeEntries l1 ++ mainTreeEntries l2 := by
  rw [mainTreeEntries_eq_map, mainTreeEntries_eq_map, mainTreeEntries_eq_map, List.map_append]

theorem varTreeEntries_append (l1 l2 : List VField) :
    varTreeEntries (l1 ++ l2) = varTreeEntries l1 ++ varTreeEntries l2 := by
  rw [varTreeEntries_eq_map, varTreeEntries_eq_map, varTreeEntries_eq_map, List.map_append]

theorem mainTreeEntries_attrs (attrs : List (String × Option SchemaAttribute)) (pfx : String) :
    mainTreeEntries (attrs.map (fun p => MainItem.attr p.1 (pfx ++ "." ++ p.1))) =
      attrs.map (fun p => (p.1, (none : Option NameTree))) := by
  rw [mainTreeEntries_eq_map, List.map_map]
  rfl

theorem varTreeEntries_attrs (attrs : List (String × Option SchemaAttribute)) (isNested : Bool) :
    varTreeEntries (attrs.map (fun p => VField.attrF p.1 (renderVarAttrOpt p.2 isNested))) =
      attrs.map (fun p => (p.1, (none : Option NameTree))) := by
  rw [varTreeEntries_eq_map, List.map_map]
  rfl

theorem single_attr_decl_entries :
    ∀ attrs : List (String × Option SchemaAttribute),
      attrs.all (fun p => p.2.isSome) = true →
      (attrs.flatMap (fun p =>
        match p.2 with
        | none => []
        | some a => [singleAttrDecl p.1 a])).map declEntry =
        attrs.map (fun p => (p.1, (none : Option NameTree)))
  | [], _ => rfl
  | (n, o) :: rest, h => by
    rw [List.all_cons] at h
    have ho : o.isSome = true := (Bool.and_eq_true_iff.mp h).1
    have hrest := (Bool.and_eq_true_iff.mp h).2
    match o, ho with
    | some a, _ =>
      rw [show (((n, some a) :: rest).flatMap (fun p =>
          match p.2 with
          | none => []
          | some a => [singleAttrDecl p.1 a])) =
        singleAttrDecl n a :: (rest.flatMap (fun p =>
          match p.2 with
          | none => []
          | some a => [singleAttrDecl p.1 a])) from rfl]
      rw [List.map_cons, single_attr_decl_entries rest hrest]
      rfl

theorem specNameTree_eq (b : SchemaBlock) :
    specNameTree b =
      .node (List.insertionSort (fun a b => strLe a.1 b.1 = true) (specEntries b)) := by
  cases b
  rfl

mutual

theorem c1_main_level (b : SchemaBlock) (pfx : String) (hv : validBlock b = true) :
    mainTreeEntries (handleAttributesAndNestedBlocks b pfx) =
      List.insertionSort (fun a b => strLe a.1 b.1 = true) (specEntries b) := by
  match b with
  | .mk attrs blocks desc =>
    have hparts : (attrs.all (fun p => p.2.isSome) && validNested blocks) = true := hv
    have hv' : validNested blocks = true := (Bool.and_eq_true_iff.mp hparts).2
    rw [show handleAttributesAndNestedBlocks (.mk attrs blocks desc) pfx =
        sortByName MainItem.name
          (attrs.map (fun p => MainItem.attr p.1 (pfx ++ "." ++ p.1)) ++
            rawNestedItems blocks pfx) from rfl]
    rw [mainTreeEntries_sortByName, mainTreeEntries_append, mainTreeEntries_attrs,
      c1_main_nested blocks pfx hv']
    rfl

theorem c1_main_nested (blocks : List (String × Option SchemaBlockType)) (pfx : String)
    (hv : validNested blocks = true) :
    mainTreeEntries (rawNestedItems blocks pfx) = specNestedEntries blocks := by
  match blocks with
  | [] => rfl
  | (n, none) :: rest => exact absurd hv (by simp [validNested])
  | (n, some (.mk mode mi ma none)) :: rest =>
    exact absurd hv (by simp [validNested, validBlockType])
  | (n, some (.mk mode mi ma (some inner))) :: rest =>
    have hparts : (validBlockType (.mk mode mi ma (some inner)) && validNested rest) = true := hv
    have hbt : validBlockType (.mk mode mi ma (some inner)) = true :=
      (Bool.and_eq_true_iff.mp hparts).1
    have hrest : validNested rest = true := (Bool.and_eq_true_iff.mp hparts).2
    have hinner : validBlock inner = true := by
      have := hbt
      simp only [validBlockType, Bool.and_eq_true] at this
      exact this.2
    rw [show rawNestedItems ((n, some (.mk mode mi ma (some inner))) :: rest) pfx =
        MainItem.dyn n (dynForEachExpr pfx n)
          (handleAttributesAndNestedBlocks inner (n ++ ".value")) ::
          rawNestedItems rest pfx from rfl]
    rw [mainTreeEntries, c1_main_nested rest pfx hrest]
    rw [show mainItemEntry (MainItem.dyn n (dynForEachExpr pfx n)
        (handleAttributesAndNestedBlocks inner (n ++ ".value"))) =
      (n, some (.node (mainTreeEntries
        (handleAttributesAndNestedBlocks inner (n ++ ".value"))))) from rfl]
    rw [c1_main_level inner (n ++ ".value") hinner, ← specNameTree_eq inner]
    rfl

end

mutual

theorem c1_var_level (b : SchemaBlock) (hv : validBlock b = true) :
    varTreeEntries (handleAttributesAndNestedBlocksForVariable b true) =
      List.insertionSort (fun a b => strLe a.1 b.1 = true) (specEntries b) := by
  match b with
  | .mk attrs blocks desc =>
    have hparts : (attrs.all (fun p => p.2.isSome) && validNested blocks) = true := hv
    have hv' : validNested blocks = true := (Bool.and_eq_true_iff.mp hparts).2
    rw [show handleAttributesAndNestedBlocksForVariable (.mk attrs blocks desc) true =
        sortByName VField.name
          (attrs.map (fun p => VField.attrF p.1 (renderVarAttrOpt p.2 true)) ++
            rawVarBlocks blocks) from rfl]
    rw [varTreeEntries_sortByName, varTreeEntries_append, varTreeEntries_attrs,
      c1_var_nested blocks hv']
    rfl

theorem c1_var_nested (blocks : List (String × Option SchemaBlockType))
    (hv : validNested blocks = true) :
    varTreeEntries (rawVarBlocks blocks) = specNestedEntries blocks := by
  match blocks with
  | [] => rfl
  | (n, none) :: rest => exact absurd hv (by simp [validNested])
  | (n, some (.mk mode mi ma none)) :: rest =>
    exact absurd hv (by simp [validNested, validBlockType])
  | (n, some (.mk mode mi ma (some inner))) :: rest =>
    have hparts : (validBlockType (.mk mode mi ma (some inner)) && validNested rest) = true := hv
    have hbt : validBlockType (.mk mode mi ma (some inner)) = true :=
      (Bool.and_eq_true_iff.mp hparts).1
    have hrest : validNested rest = true := (Bool.and_eq_true_iff.mp hparts).2
    have hmode : (mode = "single" || mode = "list" || mode = "set") = true := by
      have := hbt
      simp only [validBlockType, Bool.and_eq_true] at this
      simpa using this.1
    have hinner : validBlock inner = true := by
      have := hbt
      simp only [validBlockType, Bool.and_eq_true] at this
      exact this.2
    have hentry : specNestedEntry (n, some (.mk mode mi ma (some inner))) =
        (n, some (specNameTree inner)) := rfl
    by_cases h1 : mode = "single"
    · rw [show rawVarBlocks ((n, some (.mk mode mi ma (some inner))) :: rest) =
          VField.blockF n "object(\x7b" (mi = 0)
            (handleAttributesAndNestedBlocksForVariable inner true) :: rawVarBlocks rest by
        simp [rawVarBlocks, h1]]
      rw [varTreeEntries, c1_var_nested rest hrest]
      rw [show vfieldEntry (VField.blockF n "object(\x7b" (mi = 0)
          (handleAttributesAndNestedBlocksForVariable inner true)) =
        (n, some (.node (varTreeEntries
          (handleAttributesAndNestedBlocksForVariable inner true)))) from rfl]
      rw [c1_var_level inner hinner, ← specNameTree_eq inner]
      rw [show specNestedEntries ((n, some (.mk mode mi ma (some inner))) :: rest) =
        specNestedEntry (n, some (.mk mode mi ma (some inner))) ::
          specNestedEntries rest from rfl, hentry]
    · by_cases h2 : mode = "list"
      · rw [show rawVarBlocks ((n, some (.mk mode mi ma (some inner))) :: rest) =
            VField.blockF n "list(object(\x7b" (mi = 0)
              (handleAttributesAndNestedBlocksForVariable inner true) :: rawVarBlocks rest by
          simp [rawVarBlocks, h1, h2]]
        rw [varTreeEntries, c1_var_nested rest hrest]
        rw [show vfieldEntry (VField.blockF n "list(object(\x7b" (mi = 0)
            (handleAttributesAndNestedBlocksForVariable inner true)) =
          (n, some (.node (varTreeEntries
            (handleAttributesAndNestedBlocksForVariable inner true)))) from rfl]
        rw [c1_var_level inner hinner, ← specNameTree_eq inner]
        rw [show specNestedEntries ((n, some (.mk mode mi ma (some inner))) :: rest) =
          specNestedEntry (n, some (.mk mode mi ma (some inner))) ::
            specNestedEntries rest from rfl, hentry]
      · have h3 : mode = "set" := by
          rcases Bool.or_eq_true_iff.mp hmode with h | h
          · rcases Bool.or_eq_true_iff.mp h with h | h
            · exact absurd (by simpa using h) h1
            · exact absurd (by simpa using h) h2
          · simpa using h
        rw [show rawVarBlocks ((n, some (.mk mode mi ma (some inner))) :: rest) =
            VField.blockF n "set(object(\x7b" (mi = 0)
              (handleAttributesAndNestedBlocksForVariable inner true) :: rawVarBlocks rest by
          simp [rawVarBlocks, h1, h2, h3]]
        rw [varTreeEntries, c1_var_nested rest hrest]
        rw [show vfieldEntry (VField.blockF n "set(object(\x7b" (mi = 0)
            (handleAttributesAndNestedBlocksForVariable inner true)) =
          (n, some (.node (varTreeEntries
            (handleAttributesAndNestedBlocksForVariable inner true)))) from rfl]
        rw [c1_var_level inner hinner, ← specNameTree_eq inner]
        rw [show specNestedEntries ((n, some (.mk mode mi ma (some inner))) :: rest) =
          specNestedEntry (n, some (.mk mode mi ma (some inner))) ::
            specNestedEntries rest from rfl, hentry]

end

theorem c1_top_nested (blocks : List (String × Option SchemaBlockType)) (pfx : String)
    (hv : validNested blocks = true) :
    mainTreeEntries (rawTopNestedItems blocks pfx) = specNestedEntries blocks := by
  induction blocks with
  | nil => rfl
  | cons e rest ih =>
    match e with
    | (n, none) => exact absurd hv (by simp [validNested])
    | (n, some (.mk mode mi ma none)) =>
      exact absurd hv (by simp [validNested, validBlockType])
    | (n, some (.mk mode mi ma (some inner))) =>
      have hparts : (validBlockType (.mk mode mi ma (some inner)) && validNested rest) = true := hv
      have hrest : validNested rest = true := (Bool.and_eq_true_iff.mp hparts).2
      have hinner : validBlock inner = true := by
        have := (Bool.and_eq_true_iff.mp hparts).1
        simp only [validBlockType, Bool.and_eq_true] at this
        exact this.2
      rw [show rawTopNestedItems ((n, some (.mk mode mi ma (some inner))) :: rest) pfx =
          MainItem.dyn n (dynForEachExpr pfx n)
            (handleAttributesAndNestedBlocks inner (n ++ ".value")) ::
            rawTopNestedItems rest pfx from rfl]
      rw [mainTreeEntries, ih hrest]
      rw [show mainItemEntry (MainItem.dyn n (dynForEachExpr pfx n)
          (handleAttributesAndNestedBlocks inner (n ++ ".value"))) =
        (n, some (.node (mainTreeEntries
          (handleAttributesAndNestedBlocks inner (n ++ ".value"))))) from rfl]
      rw [c1_main_level inner (n ++ ".value") hinner, ← specNameTree_eq inner]
      rfl

theorem c1_single_nested (blocks : List (String × Option SchemaBlockType))
    (hv : validNested blocks = true) :
    (rawSingleBlockDecls blocks).map declEntry = specNestedEntries blocks := by
  induction blocks with
  | nil => rfl
  | cons e rest ih =>
    match e with
    | (n, none) => exact absurd hv (by simp [validNested])
    | (n, some (.mk mode mi ma none)) =>
      exact absurd hv (by simp [validNested, validBlockType])
    | (n, some (.mk mode mi ma (some inner))) =>
      have hparts : (validBlockType (.mk mode mi ma (some inner)) && validNested rest) = true := hv
      have hrest : validNested rest = true := (Bool.and_eq_true_iff.mp hparts).2
      have hinner : validBlock inner = true := by
        have := (Bool.and_eq_true_iff.mp hparts).1
        simp only [validBlockType, Bool.and_eq_true] at this
        exact this.2
      rw [show rawSingleBlockDecls ((n, some (.mk mode mi ma (some inner))) :: rest) =
          (⟨n, true, if ma ≠ 1 then "list(object(\x7b" else "object(\x7b",
            handleAttributesAndNestedBlocksForVariable inner true, mi = 0, none⟩ :
              VariableDecl) :: rawSingleBlockDecls rest from rfl]
      rw [List.map_cons, ih hrest]
      rw [show declEntry (⟨n, true, if ma ≠ 1 then "list(object(\x7b" else "object(\x7b",
          handleAttributesAndNestedBlocksForVariable inner true, mi = 0, none⟩ :
            VariableDecl) =
        (n, some (.node (varTreeEntries
          (handleAttributesAndNestedBlocksForVariable inner true)))) from rfl]
      rw [c1_var_level inner hinner, ← specNameTree_eq inner]
      rfl

theorem c1_resource_level (mode : String) (b : SchemaBlock) (hv : validBlock b = true) :
    mainTreeEntries (resourceBodyItems mode b) =
      List.insertionSort (fun a b => strLe a.1 b.1 = true) (specEntries b) := by
  match b with
  | .mk attrs blocks desc =>
    have hparts : (attrs.all (fun p => p.2.isSome) && validNested blocks) = true := hv
    have hv' : validNested blocks = true := (Bool.and_eq_true_iff.mp hparts).2
    rw [show resourceBodyItems mode (.mk attrs blocks desc) =
        sortByName MainItem.name
          (attrs.map (fun p => MainItem.attr p.1
            ((if mode = "single" then "var" else "each.value") ++ "." ++ p.1)) ++
            rawTopNestedItems blocks (if mode = "multiple" then "each.value" else "var"))
          from rfl]
    rw [mainTreeEntries_sortByName, mainTreeEntries_append, mainTreeEntries_attrs,
      c1_top_nested blocks _ hv']
    rfl

theorem c1_single_decls (b : SchemaBlock) (hv : validBlock b = true) :
    singleDeclEntries (createVariablesSingle b) =
      List.insertionSort (fun a b => strLe a.1 b.1 = true) (specEntries b) := by
  match b with
  | .mk attrs blocks desc =>
    have hparts : (attrs.all (fun p => p.2.isSome) && validNested blocks) = true := hv
    have hattrs : attrs.all (fun p => p.2.isSome) = true := (Bool.and_eq_true_iff.mp hparts).1
    have hv' : validNested blocks = true := (Bool.and_eq_true_iff.mp hparts).2
    rw [show createVariablesSingle (.mk attrs blocks desc) =
        sortByName VariableDecl.varName
          (attrs.flatMap (fun p =>
            match p.2 with
            | none => []
            | some a => [singleAttrDecl p.1 a]) ++ rawSingleBlockDecls blocks)
          from rfl]
    rw [singleDeclEntries_sortByName]
    unfold singleDeclEntries
    rw [List.map_append, c1_single_nested blocks hv', single_attr_decl_entries attrs hattrs]
    rfl

theorem perm_all {α : Type} {l1 l2 : List α} (h : l1.Perm l2) (p : α → Bool) :
    l1.all p = l2.all p := by
  have hiff : (l1.all p = true) ↔ (l2.all p = true) := by
    rw [List.all_eq_true, List.all_eq_true]
    constructor
    · intro hh x hx
      exact hh x (h.mem_iff.mpr hx)
    · intro hh x hx
      exact hh x (h.mem_iff.mp hx)
  cases hc1 : l1.all p <;> cases hc2 : l2.all p <;> simp_all

theorem entriesChildrenSorted_eq_all :
    ∀ l : List (String × Option NameTree), entriesChildrenSorted l = l.all entryChildSorted
  | [] => rfl
  | (n, none) :: rest => by
    rw [show entriesChildrenSorted ((n, none) :: rest) = entriesChildrenSorted rest from rfl,
      List.all_cons, entriesChildrenSorted_eq_all rest]
    rfl
  | (n, some t) :: rest => by
    rw [show entriesChildrenSorted ((n, some t) :: rest) =
      (treeSorted t && entriesChildrenSorted rest) from rfl,
      List.all_cons, entriesChildrenSorted_eq_all rest]
    rfl

theorem namesSorted_of_pairwise :
    ∀ l : List (String × Option NameTree),
      List.Pairwise (fun a b => strLe a.1 b.1 = true) l → namesSorted (l.map Prod.fst) = true
  | [] => fun _ => rfl
  | a :: rest => by
    intro h
    rw [List.pairwise_cons] at h
    match rest with
    | [] => rfl
    | b :: t =>
      rw [show ((a :: b :: t).map Prod.fst) = a.1 :: b.1 :: (t.map Prod.fst) from rfl]
      rw [show namesSorted (a.1 :: b.1 :: (t.map Prod.fst)) =
        (strLe a.1 b.1 && namesSorted (b.1 :: t.map Prod.fst)) from rfl]
      rw [h.1 b (List.mem_cons_self b t)]
      rw [show (b.1 :: t.map Prod.fst) = ((b :: t).map Prod.fst) from rfl]
      rw [namesSorted_of_pairwise (b :: t) h.2]
      rfl

theorem sortE_pairwise (l : List (String × Option NameTree)) :
    List.Pairwise (fun a b => strLe a.1 b.1 = true)
      (List.insertionSort (fun a b => strLe a.1 b.1 = true) l) :=
  @List.sorted_insertionSort (String × Option NameTree) (fun a b => strLe a.1 b.1 = true)
    (fun _ _ => instDecidableEqBool _ _)
    ⟨fun a b => lexLe_total a.1.data b.1.data⟩
    ⟨fun _ _ _ h1 h2 => lexLe_trans h1 h2⟩ l

theorem attr_entries_children (attrs : List (String × Option SchemaAttribute)) :
    (attrs.map (fun p => (p.1, (none : Option NameTree)))).all entryChildSorted = true :=
  List.all_eq_true.mpr (fun x hx => by
    rcases List.mem_map.mp hx with ⟨p, _, rfl⟩
    rfl)

theorem single_attr_decls_children (attrs : List (String × Option SchemaAttribute)) :
    ((attrs.flatMap (fun p =>
      match p.2 with
      | none => []
      | some a => [singleAttrDecl p.1 a])).map declEntry).all entryChildSorted = true :=
  List.all_eq_true.mpr (fun x hx => by
    rcases List.mem_map.mp hx with ⟨d, hd, rfl⟩
    rcases List.mem_flatMap.mp hd with ⟨p, _, hp⟩
    cases hq : p.2 with
    | none =>
      rw [hq] at hp
      cases hp
    | some a =>
      rw [hq] at hp
      rcases List.mem_singleton.mp hp with rfl
      rfl)

mutual

theorem spec_tree_sorted (b : SchemaBlock) : treeSorted (specNameTree b) = true := by
  match b with
  | .mk attrs blocks desc =>
    rw [show specNameTree (.mk attrs blocks desc) =
      .node (List.insertionSort (fun a b => strLe a.1 b.1 = true)
        (attrs.map (fun p => (p.1, (none : Option NameTree))) ++ specNestedEntries blocks))
      from rfl]
    rw [show ∀ L, treeSorted (.node L) = (namesSorted (L.map Prod.fst) &&
      entriesChildrenSorted L) from fun L => rfl]
    rw [namesSorted_of_pairwise _ (sortE_pairwise _)]
    rw [entriesChildrenSorted_eq_all,
      perm_all (List.perm_insertionSort (fun a b => strLe a.1 b.1 = true) _) entryChildSorted,
      List.all_append]
    rw [show (attrs.map (fun p => (p.1, (none : Option NameTree)))).all entryChildSorted =
      true from List.all_eq_true.mpr (fun x hx => by
        rcases List.mem_map.mp hx with ⟨p, _, rfl⟩
        rfl)]
    rw [spec_nested_children_sorted blocks]
    rfl

theorem spec_nested_children_sorted (blocks : List (String × Option SchemaBlockType)) :
    (specNestedEntries blocks).all entryChildSorted = true := by
  match blocks with
  | [] => rfl
  | (n, none) :: rest =>
    rw [show specNestedEntries ((n, none) :: rest) =
      (n, none) :: specNestedEntries rest from rfl, List.all_cons,
      spec_nested_children_sorted rest]
    rfl
  | (n, some (.mk mode mi ma none)) :: rest =>
    rw [show specNestedEntries ((n, some (.mk mode mi ma none)) :: rest) =
      (n, none) :: specNestedEntries rest from rfl, List.all_cons,
      spec_nested_children_sorted rest]
    rfl
  | (n, some (.mk mode mi ma (some inner))) :: rest =>
    rw [show specNestedEntries ((n, some (.mk mode mi ma (some inner))) :: rest) =
      (n, some (specNameTree inner)) :: specNestedEntries rest from rfl, List.all_cons,
      spec_nested_children_sorted rest]
    rw [show entryChildSorted (n, some (specNameTree inner)) =
      treeSorted (specNameTree inner) from rfl]
    rw [spec_tree_sorted inner]
    rfl

end

mutual

theorem main_sorted_level (b : SchemaBlock) (pfx : String) :
    treeSorted (.node (mainTreeEntries (handleAttributesAndNestedBlocks b pfx))) = true := by
  match b with
  | .mk attrs blocks desc =>
    rw [show handleAttributesAndNestedBlocks (.mk attrs blocks desc) pfx =
        sortByName MainItem.name
          (attrs.map (fun p => MainItem.attr p.1 (pfx ++ "." ++ p.1)) ++
            rawNestedItems blocks pfx) from rfl]
    rw [mainTreeEntries_sortByName]
    rw [show ∀ L, treeSorted (.node L) = (namesSorted (L.map Prod.fst) &&
      entriesChildrenSorted L) from fun L => rfl]
    rw [namesSorted_of_pairwise _ (sortE_pairwise _)]
    rw [entriesChildrenSorted_eq_all,
      perm_all (List.perm_insertionSort (fun a b => strLe a.1 b.1 = true) _) entryChildSorted]
    rw [mainTreeEntries_append, List.all_append, mainTreeEntries_attrs,
      attr_entries_children attrs, main_sorted_nested blocks pfx]
    rfl

theorem main_sorted_nested (blocks : List (String × Option SchemaBlockType)) (pfx : String) :
    (mainTreeEntries (rawNestedItems blocks pfx)).all entryChildSorted = true := by
  match blocks with
  | [] => rfl
  | (n, none) :: rest =>
    rw [show rawNestedItems ((n, none) :: rest) pfx = rawNestedItems rest pfx from rfl]
    exact main_sorted_nested rest pfx
  | (n, some (.mk mode mi ma none)) :: rest =>
    rw [show mainTreeEntries (rawNestedItems ((n, some (.mk mode mi ma none)) :: rest) pfx) =
      (n, some (.node [])) :: mainTreeEntries (rawNestedItems rest pfx) from rfl,
      List.all_cons, main_sorted_nested rest pfx]
    rfl
  | (n, some (.mk mode mi ma (some inner))) :: rest =>
    rw [show mainTreeEntries
        (rawNestedItems ((n, some (.mk mode mi ma (some inner))) :: rest) pfx) =
      (n, some (.node (mainTreeEntries
        (handleAttributesAndNestedBlocks inner (n ++ ".value"))))) ::
        mainTreeEntries (rawNestedItems rest pfx) from rfl,
      List.all_cons, main_sorted_nested rest pfx]
    rw [show entryChildSorted (n, some (.node (mainTreeEntries
        (handleAttributesAndNestedBlocks inner (n ++ ".value"))))) =
      treeSorted (.node (mainTreeEntries
        (handleAttributesAndNestedBlocks inner (n ++ ".value")))) from rfl]
    rw [main_sorted_level inner (n ++ ".value")]
    rfl

end

mutual

theorem var_sorted_level (b : SchemaBlock) :
    treeSorted (.node (varTreeEntries
      (handleAttributesAndNestedBlocksForVariable b true))) = true := by
  match b with
  | .mk attrs blocks desc =>
    rw [show handleAttributesAndNestedBlocksForVariable (.mk attrs blocks desc) true =
        sortByName VField.name
          (attrs.map (fun p => VField.attrF p.1 (renderVarAttrOpt p.2 true)) ++
            rawVarBlocks blocks) from rfl]
    rw [varTreeEntries_sortByName]
    rw [show ∀ L, treeSorted (.node L) = (namesSorted (L.map Prod.fst) &&
      entriesChildrenSorted L) from fun L => rfl]
    rw [namesSorted_of_pairwise _ (sortE_pairwise _)]
    rw [entriesChildrenSorted_eq_all,
      perm_all (List.perm_insertionSort (fun a b => strLe a.1 b.1 = true) _) entryChildSorted]
    rw [varTreeEntries_append, List.all_append, varTreeEntries_attrs,
      attr_entries_children attrs, var_sorted_nested blocks]
    rfl

theorem var_sorted_nested (blocks : List (String × Option SchemaBlockType)) :
    (varTreeEntries (rawVarBlocks blocks)).all entryChildSorted = true := by
  match blocks with
  | [] => rfl
  | (n, none) :: rest =>
    rw [show rawVarBlocks ((n, none) :: rest) = rawVarBlocks rest from rfl]
    exact var_sorted_nested rest
  | (n, some (.mk mode mi ma none)) :: rest =>
    by_cases h1 : mode = "single"
    · rw [show rawVarBlocks ((n, some (.mk mode mi ma none)) :: rest) =
          VField.blockF n "object(\x7b" (mi = 0) [] :: rawVarBlocks rest by
        simp [rawVarBlocks, h1]]
      rw [show varTreeEntries (VField.blockF n "object(\x7b" (mi = 0) [] :: rawVarBlocks rest) =
        (n, some (.node [])) :: varTreeEntries (rawVarBlocks rest) from rfl,
        List.all_cons, var_sorted_nested rest]
      rfl
    · by_cases h2 : mode = "list"
      · rw [show rawVarBlocks ((n, some (.mk mode mi ma none)) :: rest) =
            VField.blockF n "list(object(\x7b" (mi = 0) [] :: rawVarBlocks rest by
          simp [rawVarBlocks, h1, h2]]
        rw [show varTreeEntries
            (VField.blockF n "list(object(\x7b" (mi = 0) [] :: rawVarBlocks rest) =
          (n, some (.node [])) :: varTreeEntries (rawVarBlocks rest) from rfl,
          List.all_cons, var_sorted_nested rest]
        rfl
      · by_cases h3 : mode = "set"
        · rw [show rawVarBlocks ((n, some (.mk mode mi ma none)) :: rest) =
              VField.blockF n "set(object(\x7b" (mi = 0) [] :: rawVarBlocks rest by
            simp [rawVarBlocks, h1, h2, h3]]
          rw [show varTreeEntries
              (VField.blockF n "set(object(\x7b" (mi = 0) [] :: rawVarBlocks rest) =
            (n, some (.node [])) :: varTreeEntries (rawVarBlocks rest) from rfl,
            List.all_cons, var_sorted_nested rest]
          rfl
        · rw [show rawVarBlocks ((n, some (.mk mode mi ma none)) :: rest) =
              rawVarBlocks rest by simp [rawVarBlocks, h1, h2, h3]]
          exact var_sorted_nested rest
  | (n, some (.mk mode mi ma (some inner))) :: rest =>
    by_cases h1 : mode = "single"
    · rw [show rawVarBlocks ((n, some (.mk mode mi ma (some inner))) :: rest) =
          VField.blockF n "object(\x7b" (mi = 0)
            (handleAttributesAndNestedBlocksForVariable inner true) :: rawVarBlocks rest by
        simp [rawVarBlocks, h1]]
      rw [show varTreeEntries (VField.blockF n "object(\x7b" (mi = 0)
          (handleAttributesAndNestedBlocksForVariable inner true) :: rawVarBlocks rest) =
        (n, some (.node (varTreeEntries
          (handleAttributesAndNestedBlocksForVariable inner true)))) ::
          varTreeEntries (rawVarBlocks rest) from rfl,
        List.all_cons, var_sorted_nested rest]
      rw [show entryChildSorted (n, some (.node (varTreeEntries
          (handleAttributesAndNestedBlocksForVariable inner true)))) =
        treeSorted (.node (varTreeEntries
          (handleAttributesAndNestedBlocksForVariable inner true))) from rfl]
      rw [var_sorted_level inner]
      rfl
    · by_cases h2 : mode = "list"
      · rw [show rawVarBlocks ((n, some (.mk mode mi ma (some inner))) :: rest) =
            VField.blockF n "list(object(\x7b" (mi = 0)
              (handleAttributesAndNestedBlocksForVariable inner true) :: rawVarBlocks rest by
          simp [rawVarBlocks, h1, h2]]
        rw [show varTreeEntries (VField.blockF n "list(object(\x7b" (mi = 0)
            (handleAttributesAndNestedBlocksForVariable inner true) :: rawVarBlocks rest) =
          (n, some (.node (varTreeEntries
            (handleAttributesAndNestedBlocksForVariable inner true)))) ::
            varTreeEntries (rawVarBlocks rest) from rfl,
          List.all_cons, var_sorted_nested rest]
        rw [show entryChildSorted (n, some (.node (varTreeEntries
            (handleAttributesAndNestedBlocksForVariable inner true)))) =
          treeSorted (.node (varTreeEntries
            (handleAttributesAndNestedBlocksForVariable inner true))) from rfl]
        rw [var_sorted_level inner]
        rfl
      · by_cases h3 : mode = "set"
        · rw [show rawVarBlocks ((n, some (.mk mode mi ma (some inner))) :: rest) =
              VField.blockF n "set(object(\x7b" (mi = 0)
                (handleAttributesAndNestedBlocksForVariable inner true) :: rawVarBlocks rest by
            simp [rawVarBlocks, h1, h2, h3]]
          rw [show varTreeEntries (VField.blockF n "set(object(\x7b" (mi = 0)
              (handleAttributesAndNestedBlocksForVariable inner true) :: rawVarBlocks rest) =
            (n, some (.node (varTreeEntries
              (handleAttributesAndNestedBlocksForVariable inner true)))) ::
              varTreeEntries (rawVarBlocks rest) from rfl,
            List.all_cons, var_sorted_nested rest]
          rw [show entryChildSorted (n, some (.node (varTreeEntries
              (handleAttributesAndNestedBlocksForVariable inner true)))) =
            treeSorted (.node (varTreeEntries
              (handleAttributesAndNestedBlocksForVariable inner true))) from rfl]
          rw [var_sorted_level inner]
          rfl
        · rw [show rawVarBlocks ((n, some (.mk mode mi ma (some inner))) :: rest) =
              rawVarBlocks rest by simp [rawVarBlocks, h1, h2, h3]]
          exact var_sorted_nested rest

end

theorem top_sorted_nested (blocks : List (String × Option SchemaBlockType)) (pfx : String) :
    (mainTreeEntries (rawTopNestedItems blocks pfx)).all entryChildSorted = true := by
  induction blocks with
  | nil => rfl
  | cons e rest ih =>
    match e with
    | (n, none) =>
      rw [show rawTopNestedItems ((n, none) :: rest) pfx = rawTopNestedItems rest pfx from rfl]
      exact ih
    | (n, some (.mk mode mi ma none)) =>
      rw [show rawTopNestedItems ((n, some (.mk mode mi ma none)) :: rest) pfx =
        rawTopNestedItems rest pfx from rfl]
      exact ih
    | (n, some (.mk mode mi ma (some inner))) =>
      rw [show mainTreeEntries
          (rawTopNestedItems ((n, some (.mk mode mi ma (some inner))) :: rest) pfx) =
        (n, some (.node (mainTreeEntries
          (handleAttributesAndNestedBlocks inner (n ++ ".value"))))) ::
          mainTreeEntries (rawTopNestedItems rest pfx) from rfl,
        List.all_cons, ih]
      rw [show entryChildSorted (n, some (.node (mainTreeEntries
          (handleAttributesAndNestedBlocks inner (n ++ ".value"))))) =
        treeSorted (.node (mainTreeEntries
          (handleAttributesAndNestedBlocks inner (n ++ ".value")))) from rfl]
      rw [main_sorted_level inner (n ++ ".value")]
      rfl

theorem resource_sorted_level (mode : String) (b : SchemaBlock) :
    treeSorted (.node (mainTreeEntries (resourceBodyItems mode b))) = true := by
  match b with
  | .mk attrs blocks desc =>
    rw [show resourceBodyItems mode (.mk attrs blocks desc) =
        sortByName MainItem.name
          (attrs.map (fun p => MainItem.attr p.1
            ((if mode = "single" then "var" else "each.value") ++ "." ++ p.1)) ++
            rawTopNestedItems blocks (if mode = "multiple" then "each.value" else "var"))
          from rfl]
    rw [mainTreeEntries_sortByName]
    rw [show ∀ L, treeSorted (.node L) = (namesSorted (L.map Prod.fst) &&
      entriesChildrenSorted L) from fun L => rfl]
    rw [namesSorted_of_pairwise _ (sortE_pairwise _)]
    rw [entriesChildrenSorted_eq_all,
      perm_all (List.perm_insertionSort (fun a b => strLe a.1 b.1 = true) _) entryChildSorted]
    rw [mainTreeEntries_append, List.all_append, mainTreeEntries_attrs,
      attr_entries_children attrs, top_sorted_nested blocks _]
    rfl

theorem single_sorted_nested (blocks : List (String × Option SchemaBlockType)) :
    ((rawSingleBlockDecls blocks).map declEntry).all entryChildSorted = true := by
  induction blocks with
  | nil => rfl
  | cons e rest ih =>
    match e with
    | (n, none) =>
      rw [show rawSingleBlockDecls ((n, none) :: rest) = rawSingleBlockDecls rest from rfl]
      exact ih
    | (n, some (.mk mode mi ma none)) =>
      rw [show rawSingleBlockDecls ((n, some (.mk mode mi ma none)) :: rest) =
        rawSingleBlockDecls rest from rfl]
      exact ih
    | (n, some (.mk mode mi ma (some inner))) =>
      rw [show (rawSingleBlockDecls ((n, some (.mk mode mi ma (some inner))) :: rest)).map
          declEntry =
        (n, some (.node (varTreeEntries
          (handleAttributesAndNestedBlocksForVariable inner true)))) ::
          (rawSingleBlockDecls rest).map declEntry from rfl,
        List.all_cons, ih]
      rw [show entryChildSorted (n, some (.node (varTreeEntries
          (handleAttributesAndNestedBlocksForVariable inner true)))) =
        treeSorted (.node (varTreeEntries
          (handleAttributesAndNestedBlocksForVariable inner true))) from rfl]
      rw [var_sorted_level inner]
      rfl

theorem single_sorted_decls (b : SchemaBlock) :
    treeSorted (.node (singleDeclEntries (createVariablesSingle b))) = true := by
  match b with
  | .mk attrs blocks desc =>
    rw [show createVariablesSingle (.mk attrs blocks desc) =
        sortByName VariableDecl.varName
          (attrs.flatMap (fun p =>
            match p.2 with
            | none => []
            | some a => [singleAttrDecl p.1 a]) ++ rawSingleBlockDecls blocks)
          from rfl]
    rw [singleDeclEntries_sortByName]
    rw [show ∀ L, treeSorted (.node L) = (namesSorted (L.map Prod.fst) &&
      entriesChildrenSorted L) from fun L => rfl]
    rw [namesSorted_of_pairwise _ (sortE_pairwise _)]
    rw [entriesChildrenSorted_eq_all,
      perm_all (List.perm_insertionSort (fun a b => strLe a.1 b.1 = true) _) entryChildSorted]
    unfold singleDeclEntries
    rw [List.map_append, List.all_append, single_attr_decls_children attrs,
      single_sorted_nested blocks]
    rfl

/-- Claim C1 (amended): at every block nesting level, each of the four
emission points (the per-resource skeleton body, the recursive skeleton
handler, the multiple-mode object shape, the single-mode declaration list)
emits its names in lexicographic order, for every block without exception;
and for every valid block (every attribute entry non-nil, every nested
block a non-nil entry with a non-nil inner block and nesting mode single,
list or set, recursively), the per-level name sequences of the skeleton
generator and of the declaration generator all equal the shared
lexicographically sorted name tree of the block, every level of which is
sorted; hence CreateMainTF and CreateVariablesTF emit the same names in the
same order at every level.  Without validity the two artifacts can
disagree: the declaration generator skips nested blocks with an unknown
nesting mode and nil attribute entries in single mode, while the skeleton
generator emits both (see the counterexample). -/
theorem C1_ordering_contract :
    (∀ (b : SchemaBlock) (mode pfx : String),
      treeSorted (.node (mainTreeEntries (resourceBodyItems mode b))) = true ∧
      treeSorted (.node (mainTreeEntries (handleAttributesAndNestedBlocks b pfx))) = true ∧
      treeSorted (.node (varTreeEntries
        (handleAttributesAndNestedBlocksForVariable b true))) = true ∧
      treeSorted (.node (singleDeclEntries (createVariablesSingle b))) = true) ∧
    (∀ b : SchemaBlock, validBlock b = true →
      (∀ mode, NameTree.node (mainTreeEntries (resourceBodyItems mode b)) = specNameTree b) ∧
      (∀ pfx, NameTree.node (mainTreeEntries (handleAttributesAndNestedBlocks b pfx)) =
        specNameTree b) ∧
      NameTree.node (varTreeEntries (handleAttributesAndNestedBlocksForVariable b true)) =
        specNameTree b ∧
      NameTree.node (singleDeclEntries (createVariablesSingle b)) = specNameTree b ∧
      treeSorted (specNameTree b) = true) := by
  constructor
  · intro b mode pfx
    exact ⟨resource_sorted_level mode b, main_sorted_level b pfx, var_sorted_level b,
      single_sorted_decls b⟩
  · intro b hv
    refine ⟨?_, ?_, ?_, ?_, spec_tree_sorted b⟩
    · intro mode
      rw [c1_resource_level mode b hv, ← specNameTree_eq]
    · intro pfx
      rw [c1_main_level b pfx hv, ← specNameTree_eq]
    · rw [c1_var_level b hv, ← specNameTree_eq]
    · rw [c1_single_decls b hv, ← specNameTree_eq]

/-- Claim C1 witness: a valid schema with attributes ami, zone and a valid
nested block root_block; the emitted level is sorted, and the skeleton and
declaration name trees agree with the sorted spec tree. -/
theorem C1_ordering_contract_witness :
    treeSorted (.node (mainTreeEntries (resourceBodyItems "single"
      (.mk [("zone", some {}), ("ami", some {})]
        [("root_block", some (.mk "single" 0 1 (some (.mk [("child", some {})] [] ""))))]
        "")))) = true ∧
    NameTree.node (mainTreeEntries (resourceBodyItems "single"
      (.mk [("zone", some {}), ("ami", some {})]
        [("root_block", some (.mk "single" 0 1 (some (.mk [("child", some {})] [] ""))))]
        ""))) =
      specNameTree (.mk [("zone", some {}), ("ami", some {})]
        [("root_block", some (.mk "single" 0 1 (some (.mk [("child", some {})] [] ""))))] "") ∧
    treeSorted (specNameTree (.mk [("zone", some {}), ("ami", some {})]
      [("root_block", some (.mk "single" 0 1 (some (.mk [("child", some {})] [] ""))))] "")) =
      true :=
  ⟨(C1_ordering_contract.1 (.mk [("zone", some {}), ("ami", some {})]
      [("root_block", some (.mk "single" 0 1 (some (.mk [("child", some {})] [] ""))))] "")
      "single" "var").1,
   (C1_ordering_contract.2 (.mk [("zone", some {}), ("ami", some {})]
      [("root_block", some (.mk "single" 0 1 (some (.mk [("child", some {})] [] ""))))] "")
      (by decide)).1 "single",
   (C1_ordering_contract.2 (.mk [("zone", some {}), ("ami", some {})]
      [("root_block", some (.mk "single" 0 1 (some (.mk [("child", some {})] [] ""))))] "")
      (by decide)).2.2.2.2⟩

/-- Claim C1 counterexample: first, a resource whose block holds attribute
alpha and a nested block blk with nesting mode map and a valid inner block:
CreateMainTF (multiple mode) emits the names alpha, blk while
CreateVariablesTF emits only alpha.  Second, a resource whose block holds
the single nil attribute entry beta: CreateMainTF (single mode) emits beta
while CreateVariablesTF emits no declaration at all.  In both cases the
declaration sequence is not the lexicographic sort of the combined name set
and the two artifacts disagree, refuting the claim as stated. -/
theorem C1_ordering_counterexample :
    ((CreateMainTF
        [("registry.terraform.io/hashicorp/aws", ⟨[("aws_instance", ⟨some (.mk
          [("alpha", some {})]
          [("blk", some (.mk "map" 0 0 (some (.mk [("x", some {})] [] ""))))]
          "")⟩)]⟩)]
        [⟨"aws_instance", "multiple", ⟨"hashicorp", "aws"⟩⟩]).map
      (fun rb => (mainTreeEntries rb.items).map Prod.fst)) = [["alpha", "blk"]] ∧
    ((CreateVariablesTF
        [("registry.terraform.io/hashicorp/aws", ⟨[("aws_instance", ⟨some (.mk
          [("alpha", some {})]
          [("blk", some (.mk "map" 0 0 (some (.mk [("x", some {})] [] ""))))]
          "")⟩)]⟩)]
        [⟨"aws_instance", "multiple", ⟨"hashicorp", "aws"⟩⟩]).map
      (fun d => (varTreeEntries d.fields).map Prod.fst)) = [["alpha"]] ∧
    ([["alpha"]] : List (List String)) ≠ [["alpha", "blk"]] ∧
    ((CreateMainTF
        [("registry.terraform.io/hashicorp/aws", ⟨[("aws_instance", ⟨some (.mk
          [("beta", none)] [] "")⟩)]⟩)]
        [⟨"aws_instance", "single", ⟨"hashicorp", "aws"⟩⟩]).map
      (fun rb => (mainTreeEntries rb.items).map Prod.fst)) = [["beta"]] ∧
    ((CreateVariablesTF
        [("registry.terraform.io/hashicorp/aws", ⟨[("aws_instance", ⟨some (.mk
          [("beta", none)] [] "")⟩)]⟩)]
        [⟨"aws_instance", "single", ⟨"hashicorp", "aws"⟩⟩]).map
      (fun d => d.varName)) = [] ∧
    ([] : List String) ≠ ["beta"] := by
  refine ⟨rfl, rfl, by decide, rfl, rfl, by decide⟩

end Tmcg
